import Mathlib

/-
Verification of the model-selection and recognition core of the
AIND-Recognizer repository (`my_model_selectors.py`, `my_recognizer.py`).

The Python code is shallowly embedded: observation matrices are lists of
rows of rationals, the external GaussianHMM trainer and scorer are opaque
function parameters (`fit` may raise, modelled as `Except`; `score` may
raise, modelled as `Option`), `np.log` is an opaque function parameter,
KFold's fold assignment is an opaque function of the random seed and the
sample count, Python's `float` values that can be NaN are modelled by
`PyF`, Python's `None`-able local variable `model` is modelled by `PyVar`,
and mutation of `self.X` / `self.lengths` is modelled by explicit state
passing over `SelectorState`.
-/

namespace AIND

/-- One observation: a feature vector (row of the concatenated matrix). -/
abbrev Row : Type := List ℚ

/-- A concatenated observation matrix: a list of rows. -/
abbrev Mat : Type := List Row

/-- One observation sequence for a word: its list of rows. -/
abbrev Seq : Type := List Row

/-- Exceptions that the embedded Python code can raise or absorb. -/
inductive PyErr : Type where
  | trainError
  | scoreError
  | valueError
  | notImplementedError
deriving DecidableEq

/-- The external GaussianHMM trainer (`GaussianHMM(n_components=n, ...,
random_state=rs).fit(X, lengths)`): it receives the state count, the
random seed, the observation matrix and the segment lengths, and either
returns a fitted model or raises. -/
abbrev Trainer (M : Type) : Type := ℕ → ℕ → Mat → List ℕ → Except PyErr M

/-- The external scorer (`model.score(X, lengths)`): returns the
log-likelihood or raises (`none`). -/
abbrev Scorer (M : Type) : Type := M → Mat → List ℕ → Option ℚ

/-- Fold assignment of `KFold(shuffle=True, random_state=rs)` applied to a
sample list of the given length: each fold is a pair
(train indices, test indices).  `KFold.split` is deterministic given the
seed and the sample count, which is exactly what this signature encodes. -/
abbrev KFoldFn : Type := ℕ → ℕ → List (List ℕ × List ℕ)

/-- The fields of `ModelSelector` (set in `__init__`): the corpus-wide
sequence map, the corpus-wide concatenated map, this word's sequences,
this word's concatenated observations `X` / `lengths` (mutated by
`SelectorCV.select`), and the hyperparameters. -/
structure SelectorState (M : Type) where
  words : List (String × List Seq)
  hwords : List (String × (Mat × List ℕ))
  sequences : List Seq
  X : Mat
  lengths : List ℕ
  this_word : String
  n_constant : ℕ
  min_n_components : ℕ
  max_n_components : ℕ
  random_state : ℕ
  verbose : Bool

/-- Python `range(a, b)`. -/
def pyRange (a b : ℕ) : List ℕ := List.range' a (b - a)

/-- Python `max(x :: xs, key=...)` where `lt best y` decides
`key(best) < key(y)`: the running best is replaced exactly when the new
element's key is strictly greater, so the first maximal element wins. -/
def pyMax2 {α : Type} (lt : α → α → Bool) (x : α) (xs : List α) : α :=
  xs.foldl (fun best y => if lt best y then y else best) x

/-- Embedding of `ModelSelector.base_model`: fit a GaussianHMM with `num_states` states
on this word's current `self.X` / `self.lengths`; any exception from the
trainer is absorbed and turned into `None`. -/
def ModelSelector.base_model {M : Type} (T : Trainer M) (s : SelectorState M)
    (num_states : ℕ) : Option M :=
  match T num_states s.random_state s.X s.lengths with
  | Except.ok hmm_model => some hmm_model
  | Except.error _ => none

/-- Embedding of `SelectorConstant.select`: fit with exactly `n_constant` states. -/
def SelectorConstant.select {M : Type} (T : Trainer M) (s : SelectorState M) :
    Option M :=
  ModelSelector.base_model T s s.n_constant

/-- One iteration of `SelectorBIC.select`'s loop for `n_states`: fit,
score on the full data, and compute `BIC = -2 logL + p log N` with
`N = len(self.X)` and `p = n^2 + 2 d n - 1`, `d = len(self.X[0])`.
Any exception (scoring failure, `None.score`, `self.X[0]` on an empty
matrix) is absorbed: the candidate yields `none`. -/
def bicStep {M : Type} (T : Trainer M) (SC : Scorer M) (nplog : ℕ → ℚ)
    (s : SelectorState M) (n_states : ℕ) : Option (ℚ × M) :=
  match ModelSelector.base_model T s n_states with
  | none => none
  | some model =>
    match SC model s.X s.lengths with
    | none => none
    | some logL =>
      match s.X with
      | [] => none
      | row0 :: _ =>
        let N : ℕ := s.X.length
        let p : ℚ := (n_states : ℚ) ^ 2 + 2 * (row0.length : ℚ) * (n_states : ℚ) - 1
        some (-2 * logL + p * nplog N, model)

/-- Embedding of `SelectorBIC.select`: collect the `(BIC, model)` pairs of the
candidates in `range(min_n_components, max_n_components + 1)` that fit
and score successfully, return `None` when none did, otherwise the model
of `max(n_state_scores, key=lambda x: x[0])`. -/
def SelectorBIC.select {M : Type} (T : Trainer M) (SC : Scorer M)
    (nplog : ℕ → ℚ) (s : SelectorState M) : Option M :=
  let n_state_scores :=
    (pyRange s.min_n_components (s.max_n_components + 1)).filterMap
      (bicStep T SC nplog s)
  match n_state_scores with
  | [] => none
  | x :: xs => some (pyMax2 (fun best y => decide (best.1 < y.1)) x xs).2

/-- Embedding of `SelectorDIC.select`: the reference code is unimplemented and raises
`NotImplementedError` unconditionally. -/
def SelectorDIC.select {M : Type} (_s : SelectorState M) :
    Except PyErr (Option M) :=
  Except.error PyErr.notImplementedError

/-- A Python float that may be NaN (`np.mean([])`). -/
inductive PyF : Type where
  | nan
  | val (q : ℚ)
deriving DecidableEq

/-- Python `<` on possibly-NaN floats: any comparison with NaN is false. -/
def pyFlt : PyF → PyF → Bool
  | PyF.val a, PyF.val b => decide (a < b)
  | _, _ => false

/-- Embedding of `np.mean`: NaN on the empty list, otherwise sum divided by length. -/
def npMean (l : List ℚ) : PyF :=
  match l with
  | [] => PyF.nan
  | _ => PyF.val (l.sum / (l.length : ℚ))

/-- A Python local variable holding a model: unassigned (reading it raises
`NameError`), assigned `None`, or assigned a model. -/
inductive PyVar (M : Type) : Type where
  | unbound
  | isNone
  | bound (m : M)
deriving DecidableEq

/-- Modelled from the spec: `combine_sequences` from the external
`asl_utils` helper (not part of `src/`) builds a ConcatenatedObservations
value: it concatenates the sequences at the given indices into one
flattened matrix and pairs it with the list of their lengths. -/
def combine_sequences (split_index_list : List ℕ) (sequences : List Seq) :
    Mat × List ℕ :=
  ((split_index_list.map (fun i => sequences.getD i [])).flatten,
   split_index_list.map (fun i => (sequences.getD i []).length))

/-- The fold loop of `SelectorCV.select` for one candidate `n_states`:
for each `(cv_train_idx, cv_test_idx)` fold, reassign `self.X` /
`self.lengths` to the training concatenation, fit on them, and score the
fitted model on the held-out concatenation.  Any exception
(`None.score` after a failed fit, or a scoring failure) aborts the loop,
returning the mutated state, the current `model` variable, and `none` in
place of the collected `cv_scores`. -/
def cvFoldLoop {M : Type} (T : Trainer M) (SC : Scorer M) (n_states : ℕ) :
    List (List ℕ × List ℕ) → SelectorState M → PyVar M → List ℚ →
    SelectorState M × PyVar M × Option (List ℚ)
  | [], st, mv, acc => (st, mv, some acc)
  | (cv_train_idx, cv_test_idx) :: rest, st, _, acc =>
    let tr := combine_sequences cv_train_idx st.sequences
    let st' : SelectorState M := { st with X := tr.1, lengths := tr.2 }
    let te := combine_sequences cv_test_idx st.sequences
    match ModelSelector.base_model T st' n_states with
    | none => (st', PyVar.isNone, none)
    | some model =>
      match SC model te.1 te.2 with
      | none => (st', PyVar.bound model, none)
      | some q => cvFoldLoop T SC n_states rest st' (PyVar.bound model) (acc ++ [q])

/-- One iteration of `SelectorCV.select`'s outer loop for `n_states`,
returning the new state, the new `model` variable, and the entries
appended to `n_state_scores`.  With fewer than 3 sequences the candidate
is evaluated by a single fit/score on the full data and — since
`cv_scores` stays empty — a second `(np.mean([]), model)` = `(NaN, model)`
entry is appended by the unconditional append after the branch.  With at
least 3 sequences the fold loop runs; on success the unconditional append
records `(np.mean(cv_scores), model)` where `model` is the variable's
current content (`NameError` if it was never assigned). -/
def cvStep {M : Type} (T : Trainer M) (SC : Scorer M) (kf : KFoldFn)
    (st : SelectorState M) (mv : PyVar M) (n_states : ℕ) :
    SelectorState M × PyVar M × List (PyF × Option M) :=
  if st.sequences.length < 3 then
    match ModelSelector.base_model T st n_states with
    | none => (st, PyVar.isNone, [])
    | some model =>
      match SC model st.X st.lengths with
      | none => (st, PyVar.bound model, [])
      | some q =>
        (st, PyVar.bound model, [(PyF.val q, some model), (npMean [], some model)])
  else
    match cvFoldLoop T SC n_states (kf st.random_state st.sequences.length) st mv [] with
    | (st', mv', none) => (st', mv', [])
    | (st', mv', some cv_scores) =>
      match mv' with
      | PyVar.unbound => (st', mv', [])
      | PyVar.isNone => (st', mv', [(npMean cv_scores, none)])
      | PyVar.bound m => (st', mv', [(npMean cv_scores, some m)])

/-- The outer loop of `SelectorCV.select` over the candidate range,
threading the mutated selector state, the `model` variable and the
accumulated `n_state_scores`. -/
def cvLoop {M : Type} (T : Trainer M) (SC : Scorer M) (kf : KFoldFn) :
    List ℕ → SelectorState M → PyVar M → List (PyF × Option M) →
    SelectorState M × PyVar M × List (PyF × Option M)
  | [], st, mv, acc => (st, mv, acc)
  | n :: ns, st, mv, acc =>
    let r := cvStep T SC kf st mv n
    cvLoop T SC kf ns r.1 r.2.1 (acc ++ r.2.2)

/-- The whole search of `SelectorCV.select`: run the outer loop over
`range(min_n_components, max_n_components + 1)` from an unassigned
`model` variable and an empty score list. -/
def cvScoresRun {M : Type} (T : Trainer M) (SC : Scorer M) (kf : KFoldFn)
    (st : SelectorState M) :
    SelectorState M × PyVar M × List (PyF × Option M) :=
  cvLoop T SC kf (pyRange st.min_n_components (st.max_n_components + 1))
    st PyVar.unbound []

/-- The final selection over `n_state_scores`: `None` when the list is
empty, otherwise the second component of
`max(n_state_scores, key=lambda x: x[0])` (which is Python `None`, i.e.
`none`, when the winning entry holds `None`). -/
def pySelScores {M : Type} (scores : List (PyF × Option M)) : Option M :=
  match scores with
  | [] => none
  | x :: xs => (pyMax2 (fun best y => pyFlt best.1 y.1) x xs).2

/-- Embedding of `SelectorCV.select`: run the search, then select from the collected
scores.  The mutated selector state is returned alongside the result. -/
def SelectorCV.select {M : Type} (T : Trainer M) (SC : Scorer M)
    (kf : KFoldFn) (st : SelectorState M) : SelectorState M × Option M :=
  let r := cvScoresRun T SC kf st
  (r.1, pySelScores r.2.2)

/-- Embedding of `recognize`'s per-word score: the log-likelihood, or `float("-inf")`
(the bottom of `WithBot ℚ`) when scoring raises. -/
def recScoreVal {M : Type} (SC : Scorer M) (m : M) (sequence : Mat)
    (lengths : List ℕ) : WithBot ℚ :=
  match SC m sequence lengths with
  | some q => (q : WithBot ℚ)
  | none => (⊥ : WithBot ℚ)

/-- The loop of `recognize` over the test items (in `word_id` order):
build the `word -> logL` profile over all models, then take
`max(world_LogLvalues, key=...)` as the guess — which raises `ValueError`
on an empty profile, i.e. when the model table is empty. -/
def recognizeItems {M : Type} (SC : Scorer M) (models : List (String × M)) :
    List (Mat × List ℕ) →
    Except PyErr (List (List (String × WithBot ℚ)) × List String)
  | [] => Except.ok ([], [])
  | item :: rest =>
    let world_LogLvalues :=
      models.map (fun wm => (wm.1, recScoreVal SC wm.2 item.1 item.2))
    match world_LogLvalues with
    | [] => Except.error PyErr.valueError
    | p :: ps =>
      let guess := (pyMax2 (fun best y => decide (best.2 < y.2)) p ps).1
      match recognizeItems SC models rest with
      | Except.error e => Except.error e
      | Except.ok pr => Except.ok (world_LogLvalues :: pr.1, guess :: pr.2)

/-- Embedding of `recognize(models, test_set)`: returns the ordered list of
log-likelihood profiles and the ordered list of guesses. -/
def recognize {M : Type} (SC : Scorer M) (models : List (String × M))
    (test_set : List (Mat × List ℕ)) :
    Except PyErr (List (List (String × WithBot ℚ)) × List String) :=
  recognizeItems SC models test_set

/-! Specification-level (pure, state-free) description of one
cross-validation candidate, to compare `SelectorCV.select` against. -/

/-- Pure evaluation of the folds of one candidate: all folds must fit and
score; the per-fold scores are collected in order and the model of the
last fold is retained.  Any fold failure makes the whole candidate fail. -/
def foldEvalGo {M : Type} (T : Trainer M) (SC : Scorer M) (seqs : List Seq)
    (rs n_states : ℕ) :
    List (List ℕ × List ℕ) → List ℚ → Option M → Option (List ℚ × M)
  | [], acc, some m => some (acc, m)
  | [], _, none => none
  | (ti, te) :: rest, acc, _ =>
    let tr := combine_sequences ti seqs
    let tst := combine_sequences te seqs
    match T n_states rs tr.1 tr.2 with
    | Except.error _ => none
    | Except.ok m =>
      match SC m tst.1 tst.2 with
      | none => none
      | some q => foldEvalGo T SC seqs rs n_states rest (acc ++ [q]) (some m)

/-- The quality and retained model of one cross-validation candidate
`n`, as the spec describes it: with fewer than 3 sequences, a single
fit/score on the full data; otherwise the arithmetic mean of the per-fold
held-out log-likelihoods together with the last fold's model. -/
def cvCand {M : Type} (T : Trainer M) (SC : Scorer M) (kf : KFoldFn)
    (s : SelectorState M) (n : ℕ) : Option (ℚ × M) :=
  if s.sequences.length < 3 then
    match ModelSelector.base_model T s n with
    | none => none
    | some m =>
      match SC m s.X s.lengths with
      | none => none
      | some q => some (q, m)
  else
    match foldEvalGo T SC s.sequences s.random_state n
        (kf s.random_state s.sequences.length) [] none with
    | none => none
    | some (qs, m) => some (qs.sum / (qs.length : ℚ), m)

/-- The training-index list of the fold at which the fold loop for one
candidate stops — the last fold it evaluates.  This replays the loop's
control flow: a fold whose fit or held-out scoring fails is the last one
evaluated (the candidate is aborted there, with `self.X`/`self.lengths`
already reassigned); otherwise the loop moves on, and the last fold of
the list is the last one evaluated.  `none` only for an empty fold
list. -/
def lastEvalTrain {M : Type} (T : Trainer M) (SC : Scorer M) (seqs : List Seq)
    (rs n_states : ℕ) : List (List ℕ × List ℕ) → Option (List ℕ)
  | [] => none
  | (ti, te) :: rest =>
    match T n_states rs (combine_sequences ti seqs).1
        (combine_sequences ti seqs).2 with
    | Except.error _ => some ti
    | Except.ok m =>
      match SC m (combine_sequences te seqs).1
          (combine_sequences te seqs).2 with
      | none => some ti
      | some _ =>
        match lastEvalTrain T SC seqs rs n_states rest with
        | none => some ti
        | some ti' => some ti'

/-- The entries that one candidate contributes to `n_state_scores`:
nothing on failure; with fewer than 3 sequences the real score followed by
the spurious `(NaN, model)` entry; otherwise the single mean entry. -/
def blockOf {M : Type} (c : Option (ℚ × M)) (fewer3 : Bool) :
    List (PyF × Option M) :=
  match c, fewer3 with
  | none, _ => []
  | some (q, m), true => [(PyF.val q, some m), (PyF.nan, some m)]
  | some (q, m), false => [(PyF.val q, some m)]

/-- The real-valued entries of a score list, with NaN entries erased. -/
def realEntries {M : Type} (L : List (PyF × Option M)) :
    List (ℚ × Option M) :=
  L.filterMap (fun e =>
    match e.1 with
    | PyF.val q => some (q, e.2)
    | PyF.nan => none)

/-- All selector fields except the mutable working fields `X` and
`lengths` agree between two states. -/
def framePres {M : Type} (s t : SelectorState M) : Prop :=
  t.words = s.words ∧ t.hwords = s.hwords ∧ t.sequences = s.sequences ∧
  t.this_word = s.this_word ∧ t.n_constant = s.n_constant ∧
  t.min_n_components = s.min_n_components ∧
  t.max_n_components = s.max_n_components ∧
  t.random_state = s.random_state ∧ t.verbose = s.verbose

/-- The fields of two selector states that `SelectorCV.select` reads
agree: the sequence list, the working data, and the hyperparameters it
uses.  The states may still differ in the corpus maps, the word name, the
baseline constant and the verbosity flag. -/
def cvAgree {M : Type} (s t : SelectorState M) : Prop :=
  s.sequences = t.sequences ∧ s.X = t.X ∧ s.lengths = t.lengths ∧
  s.min_n_components = t.min_n_components ∧
  s.max_n_components = t.max_n_components ∧ s.random_state = t.random_state

/-! Concrete instances used by the witnesses. -/

/-- A concrete selector state with two sequences (fold-skip branch). -/
def wSt2 : SelectorState ℕ :=
  { words := [("A", [[[1]], [[2]]])], hwords := [("A", ([[1], [2]], [1, 1]))],
    sequences := [[[1]], [[2]]], X := [[1], [2]], lengths := [1, 1],
    this_word := "A", n_constant := 3, min_n_components := 2,
    max_n_components := 3, random_state := 14, verbose := false }

/-- A concrete selector state with three sequences (folding branch). -/
def wSt3 : SelectorState ℕ :=
  { words := [("A", [[[1]], [[2]], [[3]]])],
    hwords := [("A", ([[1], [2], [3]], [1, 1, 1]))],
    sequences := [[[1]], [[2]], [[3]]], X := [[1], [2], [3]],
    lengths := [1, 1, 1], this_word := "A", n_constant := 3,
    min_n_components := 2, max_n_components := 3, random_state := 14,
    verbose := false }

/-- State `wSt3` with a different word name and baseline constant but the same
corpus data and hyperparameters, for the determinism witness. -/
def wSt3b : SelectorState ℕ :=
  { wSt3 with
    this_word := "B"
    n_constant := 5
    words := []
    hwords := []
    verbose := true }

/-- A trainer stub that always succeeds and returns the requested state
count as the "model". -/
def wT : Trainer ℕ := fun n _ _ _ => Except.ok n

/-- A trainer stub that always fails. -/
def wTfail : Trainer ℕ := fun _ _ _ _ => Except.error PyErr.trainError

/-- A trainer stub that fails exactly for 2 states. -/
def wTmix : Trainer ℕ := fun n _ _ _ =>
  if n = 2 then Except.error PyErr.trainError else Except.ok n

/-- A scorer stub that returns the "model" itself as log-likelihood. -/
def wSC : Scorer ℕ := fun m _ _ => some (m : ℚ)

/-- A scorer stub that fails on model `2` and otherwise returns the
model. -/
def wSCp : Scorer ℕ := fun m _ _ => if m = 2 then none else some (m : ℚ)

/-- A stub for `np.log` that is identically zero. -/
def wLog : ℕ → ℚ := fun _ => 0

/-- The state reached by `self.X, self.lengths = combine_sequences(
cv_train_idx, self.sequences)`: the fold-loop's per-fold reassignment. -/
def cvAssign {M : Type} (st : SelectorState M) (ti : List ℕ) : SelectorState M :=
  { st with X := (combine_sequences ti st.sequences).1,
            lengths := (combine_sequences ti st.sequences).2 }

/-- The content of the Python `model` variable as an optional model. -/
def pvToOpt {M : Type} : PyVar M → Option M
  | PyVar.bound m => some m
  | _ => none

/-- The observable outcome of a fold loop run: the collected scores
together with the final model, provided the loop completed and the
`model` variable holds a model. -/
def loopRes {M : Type} (r : SelectorState M × PyVar M × Option (List ℚ)) :
    Option (List ℚ × M) :=
  match r.2.2 with
  | none => none
  | some qs =>
    match r.2.1 with
    | PyVar.bound m => some (qs, m)
    | _ => none

/-- A concrete 3-fold assignment on three samples. -/
def wKf : KFoldFn := fun _ _ => [([0, 1], [2]), ([0, 2], [1]), ([1, 2], [0])]

/-! Part: Properties of Python's `max` -/

theorem pyMax2_nil {α : Type} (lt : α → α → Bool) (x : α) :
    pyMax2 lt x [] = x := rfl

theorem pyMax2_cons {α : Type} (lt : α → α → Bool) (x y : α) (ys : List α) :
    pyMax2 lt x (y :: ys) = pyMax2 lt (if lt x y then y else x) ys := rfl

/-- Python `max` splits its input into a strictly smaller prefix, the
returned element, and a no-larger suffix: the first maximal element is
returned. -/
theorem pyMax2_decomp {α κ : Type} [LinearOrder κ] (key : α → κ)
    (x : α) (xs : List α) :
    ∃ l₁ l₂, x :: xs = l₁ ++ pyMax2 (fun a b => decide (key a < key b)) x xs :: l₂ ∧
      (∀ y ∈ l₁, key y < key (pyMax2 (fun a b => decide (key a < key b)) x xs)) ∧
      (∀ y ∈ l₂, key y ≤ key (pyMax2 (fun a b => decide (key a < key b)) x xs)) := by
  induction xs generalizing x with
  | nil => exact ⟨[], [], rfl, by simp, by simp⟩
  | cons y ys ih =>
    rw [pyMax2_cons]
    by_cases h : key x < key y
    · rw [if_pos (by simpa using h)]
      obtain ⟨l₁, l₂, heq, h₁, h₂⟩ := ih y
      cases l₁ with
      | nil =>
        simp only [List.nil_append, List.cons.injEq] at heq
        refine ⟨[x], l₂, ?_, ?_, h₂⟩
        · rw [List.cons_append, List.nil_append, ← heq.1, ← heq.2]
        · intro z hz
          rw [List.mem_singleton] at hz
          subst hz
          exact heq.1 ▸ h
      | cons z l₁' =>
        simp only [List.cons_append, List.cons.injEq] at heq
        have hylt : key y <
            key (pyMax2 (fun a b => decide (key a < key b)) y ys) := by
          have h1z := h₁ z (List.mem_cons_self z l₁')
          rw [← heq.1] at h1z
          exact h1z
        refine ⟨x :: y :: l₁', l₂, ?_, ?_, h₂⟩
        · conv_lhs => rw [heq.2]
          simp [List.cons_append]

        · intro w hw
          rcases List.mem_cons.mp hw with rfl | hw
          · exact lt_trans h hylt
          · rcases List.mem_cons.mp hw with rfl | hw
            · exact hylt
            · exact h₁ w (List.mem_cons_of_mem z hw)
    · rw [if_neg (by simpa using h)]
      obtain ⟨l₁, l₂, heq, h₁, h₂⟩ := ih x
      cases l₁ with
      | nil =>
        simp only [List.nil_append, List.cons.injEq] at heq
        refine ⟨[], y :: ys, ?_, by simp, ?_⟩
        · rw [List.nil_append, ← heq.1]
        · intro z hz
          rcases List.mem_cons.mp hz with rfl | hz
          · exact heq.1 ▸ le_of_not_lt h
          · exact h₂ z (heq.2 ▸ hz)
      | cons z l₁' =>
        simp only [List.cons_append, List.cons.injEq] at heq
        have hxlt : key x <
            key (pyMax2 (fun a b => decide (key a < key b)) x ys) := by
          have h1z := h₁ z (List.mem_cons_self z l₁')
          rw [← heq.1] at h1z
          exact h1z
        refine ⟨x :: y :: l₁', l₂, ?_, ?_, h₂⟩
        · conv_lhs => rw [heq.2]
          simp [List.cons_append]

        · intro w hw
          rcases List.mem_cons.mp hw with rfl | hw
          · exact hxlt
          · rcases List.mem_cons.mp hw with rfl | hw
            · exact lt_of_le_of_lt (le_of_not_lt h) hxlt
            · exact h₁ w (List.mem_cons_of_mem z hw)

theorem pyMax2_mem {α κ : Type} [LinearOrder κ] (key : α → κ)
    (x : α) (xs : List α) :
    pyMax2 (fun a b => decide (key a < key b)) x xs ∈ x :: xs := by
  obtain ⟨l₁, l₂, heq, -, -⟩ := pyMax2_decomp key x xs
  rw [heq]
  simp

theorem pyMax2_key_le {α κ : Type} [LinearOrder κ] (key : α → κ)
    (x : α) (xs : List α) :
    ∀ y ∈ x :: xs, key y ≤ key (pyMax2 (fun a b => decide (key a < key b)) x xs) := by
  obtain ⟨l₁, l₂, heq, h₁, h₂⟩ := pyMax2_decomp key x xs
  intro y hy
  rw [heq] at hy
  rcases List.mem_append.mp hy with hy | hy
  · exact le_of_lt (h₁ y hy)
  · rcases List.mem_cons.mp hy with rfl | hy
    · exact le_refl _
    · exact h₂ y hy

/-! Part: NaN erasure: with a real-valued start, NaN entries never win -/

theorem realEntries_nil {M : Type} : realEntries (M := M) [] = [] := rfl

theorem realEntries_cons_nan {M : Type} (m : Option M) (L : List (PyF × Option M)) :
    realEntries ((PyF.nan, m) :: L) = realEntries L := rfl

theorem realEntries_cons_val {M : Type} (q : ℚ) (m : Option M)
    (L : List (PyF × Option M)) :
    realEntries ((PyF.val q, m) :: L) = (q, m) :: realEntries L := rfl

theorem realEntries_append {M : Type} (L₁ L₂ : List (PyF × Option M)) :
    realEntries (L₁ ++ L₂) = realEntries L₁ ++ realEntries L₂ :=
  List.filterMap_append L₁ L₂ _

/-- When Python's `max` starts from a real-valued entry, entries holding
NaN can never replace the running best (every comparison with NaN is
false), so the result is the max of the real-valued entries. -/
theorem pyMax2_pyF {M : Type} (q : ℚ) (om : Option M)
    (xs : List (PyF × Option M)) :
    pyMax2 (fun best y => pyFlt best.1 y.1) (PyF.val q, om) xs =
      ((PyF.val (pyMax2 (fun best y => decide (best.1 < y.1)) (q, om)
          (realEntries xs)).1,
        (pyMax2 (fun best y => decide (best.1 < y.1)) (q, om)
          (realEntries xs)).2)) := by
  induction xs generalizing q om with
  | nil => rfl
  | cons y ys ih =>
    obtain ⟨yf, ym⟩ := y
    cases yf with
    | nan =>
      rw [pyMax2_cons, realEntries_cons_nan]
      have hlt : pyFlt (PyF.val q, om).1 (PyF.nan, ym).1 = false := rfl
      rw [hlt]
      simp only [Bool.false_eq_true, if_false]
      exact ih q om
    | val b =>
      rw [pyMax2_cons, realEntries_cons_val, pyMax2_cons]
      have hlt : pyFlt (PyF.val q, om).1 (PyF.val b, ym).1 = decide (q < b) := rfl
      rw [hlt]
      by_cases hqb : q < b
      · rw [if_pos (by simpa using hqb), if_pos (by simpa using hqb)]
        exact ih b ym
      · rw [if_neg (by simpa using hqb), if_neg (by simpa using hqb)]
        exact ih q om

/-! Part: C7: `base_model` absorbs trainer failures -/

/-- C7: `ModelSelector.base_model(n)` returns `none` exactly when the
trainer raises (the failure is absorbed, never propagated), and on
success it returns exactly the model the trainer fitted with `n` states
on the selector's stored full concatenated observations
`self.X` / `self.lengths` with the configured seed. -/
theorem C7_base_model_absorbs {M : Type} (T : Trainer M) (s : SelectorState M)
    (n : ℕ) :
    ((∃ e, T n s.random_state s.X s.lengths = Except.error e) →
      ModelSelector.base_model T s n = none) ∧
    (∀ m, T n s.random_state s.X s.lengths = Except.ok m →
      ModelSelector.base_model T s n = some m) ∧
    (∀ m, ModelSelector.base_model T s n = some m →
      T n s.random_state s.X s.lengths = Except.ok m) := by
  refine ⟨?_, ?_, ?_⟩
  · rintro ⟨e, he⟩
    simp [ModelSelector.base_model, he]
  · intro m hm
    simp [ModelSelector.base_model, hm]
  · intro m hm
    cases h : T n s.random_state s.X s.lengths with
    | ok m' =>
      simp [ModelSelector.base_model, h] at hm
      rw [hm]
    | error e =>
      simp [ModelSelector.base_model, h] at hm

theorem C7_witness :
    ModelSelector.base_model wTmix wSt2 2 = none ∧
    ModelSelector.base_model wTmix wSt2 3 = some 3 :=
  ⟨(C7_base_model_absorbs wTmix wSt2 2).1 ⟨PyErr.trainError, rfl⟩,
   (C7_base_model_absorbs wTmix wSt2 3).2.1 3 rfl⟩

/-! Part: C4: the DIC selector is unimplemented -/

/-- C4 (code bug evidence): `SelectorDIC.select` does not perform the DIC
search its docstring and the spec describe; it raises
`NotImplementedError` on every input, here evaluated on a concrete
selector state. -/
theorem C4_dic_raises :
    SelectorDIC.select (M := ℕ) wSt3 = Except.error PyErr.notImplementedError :=
  rfl

/-! Part: C1: behaviour when every candidate fails to fit -/

/-- C1 (counterexample): contrary to the claim that every strategy's
`select()` returns none without raising when all fits fail,
`SelectorDIC.select` raises `NotImplementedError` (it never returns at
all, whatever the trainer does). -/
theorem C1_cex_dic_raises :
    SelectorDIC.select (M := ℕ) wSt2 = Except.error PyErr.notImplementedError ∧
    ∀ r, SelectorDIC.select (M := ℕ) wSt2 ≠ Except.ok r := by
  refine ⟨rfl, ?_⟩
  intro r h
  cases h

/-! Part: C10: recognize with an empty model table -/

/-- C10: with an empty word-model table and at least one test item,
`recognize` raises `ValueError` (Python's `max` of the empty per-item
profile); with a non-empty table it always returns a result. -/
theorem C10_recognize_empty_table {M : Type} :
    (∀ (SC : Scorer M) (item : Mat × List ℕ) (rest : List (Mat × List ℕ)),
      recognize SC [] (item :: rest) = Except.error PyErr.valueError) ∧
    (∀ (SC : Scorer M) (models : List (String × M)) (items : List (Mat × List ℕ)),
      models ≠ [] → ∃ r, recognize SC models items = Except.ok r) := by
  constructor
  · intro SC item rest
    rfl
  · intro SC models items hne
    cases models with
    | nil => exact absurd rfl hne
    | cons m0 ms =>
      clear hne
      induction items with
      | nil => exact ⟨([], []), rfl⟩
      | cons item rest ih =>
        obtain ⟨r, hr⟩ := ih
        show ∃ r, recognizeItems SC (m0 :: ms) (item :: rest) = Except.ok r
        rw [recognizeItems]
        simp only [List.map_cons]
        have hr' : recognizeItems SC (m0 :: ms) rest = Except.ok r := hr
        rw [hr']
        exact ⟨_, rfl⟩

/-! Part: C2: the BIC selector -/

/-- C2: `SelectorBIC.select` returns `none` exactly when every candidate
in `[min_n_components, max_n_components]` fails; otherwise it returns the
model of a successful candidate whose BIC is maximal among all successful
candidates; and every successful candidate's recorded score is
`-2 logL + (n^2 + 2 d n - 1) log N` with `N` the number of observation
rows of the word's full data and `d` the feature dimensionality. -/
theorem C2_bic_select {M : Type} (T : Trainer M) (SC : Scorer M)
    (nplog : ℕ → ℚ) (s : SelectorState M) :
    (SelectorBIC.select T SC nplog s = none ↔
      ∀ n ∈ pyRange s.min_n_components (s.max_n_components + 1),
        bicStep T SC nplog s n = none) ∧
    (∀ m, SelectorBIC.select T SC nplog s = some m →
      ∃ n ∈ pyRange s.min_n_components (s.max_n_components + 1), ∃ b,
        bicStep T SC nplog s n = some (b, m) ∧
        ∀ n' ∈ pyRange s.min_n_components (s.max_n_components + 1),
          ∀ p, bicStep T SC nplog s n' = some p → p.1 ≤ b) ∧
    (∀ n model logL r rest, ModelSelector.base_model T s n = some model →
      SC model s.X s.lengths = some logL → s.X = r :: rest →
      bicStep T SC nplog s n =
        some (-2 * logL +
          ((n : ℚ) ^ 2 + 2 * (r.length : ℚ) * (n : ℚ) - 1) * nplog s.X.length,
          model)) := by
  refine ⟨?_, ?_, ?_⟩
  · cases hL : (pyRange s.min_n_components (s.max_n_components + 1)).filterMap
        (bicStep T SC nplog s) with
    | nil =>
      have hsel : SelectorBIC.select T SC nplog s = none := by
        unfold SelectorBIC.select
        rw [hL]
      rw [hsel]
      exact iff_of_true rfl ((List.filterMap_eq_nil_iff).mp hL)
    | cons x xs =>
      have hsel : SelectorBIC.select T SC nplog s =
          some (pyMax2 (fun best y => decide (best.1 < y.1)) x xs).2 := by
        unfold SelectorBIC.select
        rw [hL]
      rw [hsel]
      refine iff_of_false (by simp) ?_
      intro hall
      have : x ∈ (pyRange s.min_n_components (s.max_n_components + 1)).filterMap
          (bicStep T SC nplog s) := by
        rw [hL]
        exact List.mem_cons_self x xs
      obtain ⟨n, hn, hstep⟩ := List.mem_filterMap.mp this
      rw [hall n hn] at hstep
      cases hstep
  · intro m hm
    cases hL : (pyRange s.min_n_components (s.max_n_components + 1)).filterMap
        (bicStep T SC nplog s) with
    | nil =>
      have hsel : SelectorBIC.select T SC nplog s = none := by
        unfold SelectorBIC.select
        rw [hL]
      rw [hsel] at hm
      cases hm
    | cons x xs =>
      have hsel : SelectorBIC.select T SC nplog s =
          some (pyMax2 (fun best y => decide (best.1 < y.1)) x xs).2 := by
        unfold SelectorBIC.select
        rw [hL]
      rw [hsel] at hm
      have hmv := Option.some.inj hm
      have hbest := pyMax2_mem (Prod.fst (α := ℚ) (β := M)) x xs
      rw [← hL] at hbest
      obtain ⟨n, hn, hstep⟩ := List.mem_filterMap.mp hbest
      refine ⟨n, hn, (pyMax2 (fun best y => decide (best.1 < y.1)) x xs).1, ?_, ?_⟩
      · rw [hstep, ← hmv, Prod.mk.eta]
      · intro n' hn' p hp
        have hpmem : p ∈ (pyRange s.min_n_components (s.max_n_components + 1)).filterMap
            (bicStep T SC nplog s) :=
          List.mem_filterMap.mpr ⟨n', hn', hp⟩
        rw [hL] at hpmem
        exact pyMax2_key_le (Prod.fst (α := ℚ) (β := M)) x xs p hpmem
  · intro n model logL r rest h1 h2 h3
    rw [h3] at h2
    simp only [bicStep, h1, h2, h3]

theorem C2_witness :
    ∃ n ∈ pyRange wSt2.min_n_components (wSt2.max_n_components + 1), ∃ b,
      bicStep wT wSC wLog wSt2 n = some (b, 2) ∧
      ∀ n' ∈ pyRange wSt2.min_n_components (wSt2.max_n_components + 1),
        ∀ p, bicStep wT wSC wLog wSt2 n' = some p → p.1 ≤ b :=
  (C2_bic_select wT wSC wLog wSt2).2.1 2 (by
    norm_num [SelectorBIC.select, bicStep, ModelSelector.base_model, wT, wSC,
      wLog, wSt2, pyRange, List.range', pyMax2, List.filterMap_cons,
      List.filterMap_nil, List.foldl_cons, List.foldl_nil])

/-! Part: C5 and C6: the recognizer's profiles and guesses -/

/-- Unfolding of `recognizeItems` on one more item when the model table is
non-empty and the remaining items already produced a result. -/
theorem recognizeItems_cons_ok {M : Type} (SC : Scorer M) (m0 : String × M)
    (ms : List (String × M)) (item : Mat × List ℕ) (rest : List (Mat × List ℕ))
    (pr : List (List (String × WithBot ℚ)) × List String)
    (h : recognizeItems SC (m0 :: ms) rest = Except.ok pr) :
    recognizeItems SC (m0 :: ms) (item :: rest) =
      Except.ok
        (((m0 :: ms).map (fun wm => (wm.1, recScoreVal SC wm.2 item.1 item.2))) :: pr.1,
         (pyMax2 (fun best y => decide (best.2 < y.2))
            (m0.1, recScoreVal SC m0.2 item.1 item.2)
            (ms.map (fun wm => (wm.1, recScoreVal SC wm.2 item.1 item.2)))).1
           :: pr.2) := by
  rw [recognizeItems]
  simp only [List.map_cons]
  rw [h]

/-- C5: with a non-empty model table (a mapping, so its keys are distinct),
`recognize` returns a result whose profile list is index-aligned with the
test items, every profile's key list is exactly the model table's key
list, and a word whose model fails to score an item appears in that
item's profile with value `-inf` (`⊥`) instead of being omitted. -/
theorem C5_profile_keys {M : Type} (SC : Scorer M) (models : List (String × M))
    (items : List (Mat × List ℕ)) (hne : models ≠ [])
    (hnd : (models.map Prod.fst).Nodup) :
    ∃ probs guesses, recognize SC models items = Except.ok (probs, guesses) ∧
      probs.length = items.length ∧
      (∀ pf ∈ probs, pf.map Prod.fst = models.map Prod.fst) ∧
      List.Forall₂ (fun it pf =>
        pf = models.map (fun wm => (wm.1, recScoreVal SC wm.2 it.1 it.2)) ∧
        ∀ wm ∈ models, SC wm.2 it.1 it.2 = none →
          (wm.1, (⊥ : WithBot ℚ)) ∈ pf) items probs := by
  clear hnd
  cases models with
  | nil => exact absurd rfl hne
  | cons m0 ms =>
    clear hne
    induction items with
    | nil => exact ⟨[], [], rfl, rfl, by simp, List.Forall₂.nil⟩
    | cons item rest ih =>
      obtain ⟨probs, guesses, hok, hlen, hkeys, hfa⟩ := ih
      have hok' : recognizeItems SC (m0 :: ms) rest = Except.ok (probs, guesses) := hok
      refine ⟨_, _, recognizeItems_cons_ok SC m0 ms item rest (probs, guesses) hok', ?_, ?_, ?_⟩
      · simpa using hlen
      · intro pf hpf
        rcases List.mem_cons.mp hpf with rfl | hpf
        · simp
        · exact hkeys pf hpf
      · refine List.Forall₂.cons ⟨rfl, ?_⟩ hfa
        intro wm hwm hfail
        refine List.mem_map.mpr ⟨wm, hwm, ?_⟩
        rw [recScoreVal, hfail]

theorem C5_witness :
    ∃ probs guesses,
      recognize wSCp [("A", 1), ("B", 2)] [([[1]], [1])] =
        Except.ok (probs, guesses) ∧
      probs.length = [([[1]], [1])].length ∧
      (∀ pf ∈ probs, pf.map Prod.fst = [("A", 1), ("B", 2)].map Prod.fst) ∧
      List.Forall₂ (fun (it : Mat × List ℕ) pf =>
        pf = [("A", 1), ("B", 2)].map
          (fun wm => (wm.1, recScoreVal wSCp wm.2 it.1 it.2)) ∧
        ∀ wm ∈ [("A", 1), ("B", 2)], wSCp wm.2 it.1 it.2 = none →
          (wm.1, (⊥ : WithBot ℚ)) ∈ pf) [([[1]], [1])] probs :=
  C5_profile_keys wSCp [("A", 1), ("B", 2)] [([[1]], [1])] (by simp) (by simp)

/-- C6: with a non-empty model table, `recognize`'s output lists are
index-aligned with the test items, and each item's guess is the first
word (in the model table's iteration order) whose recorded value is
maximal in that item's profile; the guess's value is `-inf` only when
every word's value for that item is `-inf`. -/
theorem C6_guess_argmax {M : Type} (SC : Scorer M) (models : List (String × M))
    (items : List (Mat × List ℕ)) (hne : models ≠ [])
    (hnd : (models.map Prod.fst).Nodup) :
    ∃ probs guesses, recognize SC models items = Except.ok (probs, guesses) ∧
      probs.length = items.length ∧ guesses.length = items.length ∧
      List.Forall₂ (fun it pf =>
        pf = models.map (fun wm => (wm.1, recScoreVal SC wm.2 it.1 it.2)))
        items probs ∧
      List.Forall₂ (fun pf g => ∃ v l₁ l₂,
        pf = l₁ ++ (g, v) :: l₂ ∧
        (∀ wv ∈ l₁, wv.2 < v) ∧
        (∀ wv ∈ l₂, wv.2 ≤ v) ∧
        (v = (⊥ : WithBot ℚ) → ∀ wv ∈ pf, wv.2 = (⊥ : WithBot ℚ)))
        probs guesses := by
  clear hnd
  cases models with
  | nil => exact absurd rfl hne
  | cons m0 ms =>
    clear hne
    induction items with
    | nil => exact ⟨[], [], rfl, rfl, rfl, List.Forall₂.nil, List.Forall₂.nil⟩
    | cons item rest ih =>
      obtain ⟨probs, guesses, hok, hlp, hlg, hal, hfa⟩ := ih
      have hok' : recognizeItems SC (m0 :: ms) rest = Except.ok (probs, guesses) := hok
      refine ⟨_, _, recognizeItems_cons_ok SC m0 ms item rest (probs, guesses) hok', ?_, ?_, List.Forall₂.cons rfl hal, ?_⟩
      · simpa using hlp
      · simpa using hlg
      · refine List.Forall₂.cons ?_ hfa
        obtain ⟨l₁, l₂, heq, h₁, h₂⟩ :=
          pyMax2_decomp (Prod.snd (α := String) (β := WithBot ℚ))
            (m0.1, recScoreVal SC m0.2 item.1 item.2)
            (ms.map (fun wm => (wm.1, recScoreVal SC wm.2 item.1 item.2)))
        set r := pyMax2 (fun a b => decide (a.2 < b.2))
          (m0.1, recScoreVal SC m0.2 item.1 item.2)
          (ms.map (fun wm => (wm.1, recScoreVal SC wm.2 item.1 item.2))) with hr
        refine ⟨r.2, l₁, l₂, ?_, h₁, h₂, ?_⟩
        · rw [List.map_cons, Prod.mk.eta]
          exact heq
        · intro hbot wv hwv
          rw [List.map_cons] at hwv
          rw [heq] at hwv
          rcases List.mem_append.mp hwv with hwv | hwv
          · exact absurd (hbot ▸ h₁ wv hwv) not_lt_bot
          · rcases List.mem_cons.mp hwv with rfl | hwv
            · exact hbot
            · exact le_bot_iff.mp (hbot ▸ h₂ wv hwv)

theorem C6_witness :
    ∃ probs guesses,
      recognize wSCp [("A", 1), ("B", 2)] [([[2]], [1])] =
        Except.ok (probs, guesses) ∧
      probs.length = [([[2]], [1])].length ∧
      guesses.length = [([[2]], [1])].length ∧
      List.Forall₂ (fun (it : Mat × List ℕ) pf =>
        pf = [("A", 1), ("B", 2)].map
          (fun wm => (wm.1, recScoreVal wSCp wm.2 it.1 it.2)))
        [([[2]], [1])] probs ∧
      List.Forall₂ (fun pf g => ∃ v l₁ l₂,
        pf = l₁ ++ (g, v) :: l₂ ∧
        (∀ wv ∈ l₁, wv.2 < v) ∧
        (∀ wv ∈ l₂, wv.2 ≤ v) ∧
        (v = (⊥ : WithBot ℚ) → ∀ wv ∈ pf, wv.2 = (⊥ : WithBot ℚ)))
        probs guesses :=
  C6_guess_argmax wSCp [("A", 1), ("B", 2)] [([[2]], [1])] (by simp) (by simp)

theorem C10_witness :
    recognize wSC [] [([[1]], [1])] = Except.error PyErr.valueError ∧
    ∃ r, recognize wSC [("A", 1)] [([[1]], [1])] = Except.ok r :=
  ⟨(C10_recognize_empty_table (M := ℕ)).1 wSC ([[1]], [1]) [],
   (C10_recognize_empty_table (M := ℕ)).2 wSC [("A", 1)] [([[1]], [1])]
     (by simp)⟩

/-! Part: Properties of the cross-validation fold loop -/

theorem framePres_refl {M : Type} (s : SelectorState M) : framePres s s :=
  ⟨rfl, rfl, rfl, rfl, rfl, rfl, rfl, rfl, rfl⟩

theorem framePres_trans {M : Type} {s t u : SelectorState M}
    (h1 : framePres s t) (h2 : framePres t u) : framePres s u :=
  ⟨h2.1.trans h1.1, h2.2.1.trans h1.2.1, h2.2.2.1.trans h1.2.2.1,
   h2.2.2.2.1.trans h1.2.2.2.1, h2.2.2.2.2.1.trans h1.2.2.2.2.1,
   h2.2.2.2.2.2.1.trans h1.2.2.2.2.2.1,
   h2.2.2.2.2.2.2.1.trans h1.2.2.2.2.2.2.1,
   h2.2.2.2.2.2.2.2.1.trans h1.2.2.2.2.2.2.2.1,
   h2.2.2.2.2.2.2.2.2.trans h1.2.2.2.2.2.2.2.2⟩

theorem framePres_cvAssign {M : Type} (st : SelectorState M) (ti : List ℕ) :
    framePres st (cvAssign st ti) :=
  ⟨rfl, rfl, rfl, rfl, rfl, rfl, rfl, rfl, rfl⟩

theorem cvAssign_sequences {M : Type} (st : SelectorState M) (ti : List ℕ) :
    (cvAssign st ti).sequences = st.sequences := rfl

theorem cvAssign_random_state {M : Type} (st : SelectorState M) (ti : List ℕ) :
    (cvAssign st ti).random_state = st.random_state := rfl

/-- Unfolding of one fold of the loop. -/
theorem cvFoldLoop_cons {M : Type} (T : Trainer M) (SC : Scorer M) (n : ℕ)
    (ti te : List ℕ) (rest : List (List ℕ × List ℕ)) (st : SelectorState M)
    (mv : PyVar M) (acc : List ℚ) :
    cvFoldLoop T SC n ((ti, te) :: rest) st mv acc =
      match ModelSelector.base_model T (cvAssign st ti) n with
      | none => (cvAssign st ti, PyVar.isNone, none)
      | some model =>
        match SC model (combine_sequences te st.sequences).1
            (combine_sequences te st.sequences).2 with
        | none => (cvAssign st ti, PyVar.bound model, none)
        | some q =>
          cvFoldLoop T SC n rest (cvAssign st ti) (PyVar.bound model)
            (acc ++ [q]) := rfl

/-- Field computations of the per-fold reassignment. -/
theorem cvAssign_X {M : Type} (st : SelectorState M) (ti : List ℕ) :
    (cvAssign st ti).X = (combine_sequences ti st.sequences).1 := rfl

theorem cvAssign_lengths {M : Type} (st : SelectorState M) (ti : List ℕ) :
    (cvAssign st ti).lengths = (combine_sequences ti st.sequences).2 := rfl

theorem cvFoldLoop_nil {M : Type} (T : Trainer M) (SC : Scorer M) (n : ℕ)
    (st : SelectorState M) (mv : PyVar M) (acc : List ℚ) :
    cvFoldLoop T SC n [] st mv acc = (st, mv, some acc) := rfl

/-- One fold whose fit fails: `model` is `None`, `None.score` raises, the
candidate is aborted with the state already mutated. -/
theorem cvFoldLoop_cons_err {M : Type} {T : Trainer M} {SC : Scorer M}
    {n : ℕ} {ti te : List ℕ} {rest : List (List ℕ × List ℕ)}
    {st : SelectorState M} {mv : PyVar M} {acc : List ℚ}
    (hbm : ModelSelector.base_model T (cvAssign st ti) n = none) :
    cvFoldLoop T SC n ((ti, te) :: rest) st mv acc =
      (cvAssign st ti, PyVar.isNone, none) := by
  rw [cvFoldLoop_cons]
  simp only [hbm]

/-- One fold whose fit succeeds but whose held-out scoring raises. -/
theorem cvFoldLoop_cons_scorefail {M : Type} {T : Trainer M} {SC : Scorer M}
    {n : ℕ} {ti te : List ℕ} {rest : List (List ℕ × List ℕ)}
    {st : SelectorState M} {mv : PyVar M} {acc : List ℚ} {model : M}
    (hbm : ModelSelector.base_model T (cvAssign st ti) n = some model)
    (hSC : SC model (combine_sequences te st.sequences).1
      (combine_sequences te st.sequences).2 = none) :
    cvFoldLoop T SC n ((ti, te) :: rest) st mv acc =
      (cvAssign st ti, PyVar.bound model, none) := by
  rw [cvFoldLoop_cons]
  simp only [hbm, hSC]

/-- One fully successful fold: the loop continues on the mutated state
with the freshly fitted model and the extended score list. -/
theorem cvFoldLoop_cons_ok {M : Type} {T : Trainer M} {SC : Scorer M}
    {n : ℕ} {ti te : List ℕ} {rest : List (List ℕ × List ℕ)}
    {st : SelectorState M} {mv : PyVar M} {acc : List ℚ} {model : M} {q : ℚ}
    (hbm : ModelSelector.base_model T (cvAssign st ti) n = some model)
    (hSC : SC model (combine_sequences te st.sequences).1
      (combine_sequences te st.sequences).2 = some q) :
    cvFoldLoop T SC n ((ti, te) :: rest) st mv acc =
      cvFoldLoop T SC n rest (cvAssign st ti) (PyVar.bound model)
        (acc ++ [q]) := by
  rw [cvFoldLoop_cons]
  simp only [hbm, hSC]

theorem foldEvalGo_nil_some {M : Type} (T : Trainer M) (SC : Scorer M)
    (seqs : List Seq) (rs n : ℕ) (acc : List ℚ) (m : M) :
    foldEvalGo T SC seqs rs n [] acc (some m) = some (acc, m) := rfl

theorem foldEvalGo_nil_none {M : Type} (T : Trainer M) (SC : Scorer M)
    (seqs : List Seq) (rs n : ℕ) (acc : List ℚ) :
    foldEvalGo T SC seqs rs n [] acc none = none := rfl

theorem foldEvalGo_cons {M : Type} (T : Trainer M) (SC : Scorer M)
    (seqs : List Seq) (rs n : ℕ) (ti te : List ℕ)
    (rest : List (List ℕ × List ℕ)) (acc : List ℚ) (init : Option M) :
    foldEvalGo T SC seqs rs n ((ti, te) :: rest) acc init =
      match T n rs (combine_sequences ti seqs).1
          (combine_sequences ti seqs).2 with
      | Except.error _ => none
      | Except.ok m =>
        match SC m (combine_sequences te seqs).1
            (combine_sequences te seqs).2 with
        | none => none
        | some q => foldEvalGo T SC seqs rs n rest (acc ++ [q]) (some m) := by
  cases init <;> rfl

/-- Computation of `base_model` on the reassigned state, written over the invariant
sequence list and seed. -/
theorem base_model_cvAssign {M : Type} (T : Trainer M) {st : SelectorState M}
    {seqs : List Seq} {rs : ℕ} (ti : List ℕ) (n : ℕ)
    (hs : st.sequences = seqs) (hr : st.random_state = rs) :
    ModelSelector.base_model T (cvAssign st ti) n =
      match T n rs (combine_sequences ti seqs).1
          (combine_sequences ti seqs).2 with
      | Except.ok m => some m
      | Except.error _ => none := by
  simp only [ModelSelector.base_model, cvAssign_X, cvAssign_lengths,
    cvAssign_random_state, hs, hr]

/-- The fold loop only mutates the working fields `X` and `lengths`. -/
theorem cvFoldLoop_frame {M : Type} (T : Trainer M) (SC : Scorer M) (n : ℕ) :
    ∀ (folds : List (List ℕ × List ℕ)) (st : SelectorState M) (mv : PyVar M)
      (acc : List ℚ), framePres st (cvFoldLoop T SC n folds st mv acc).1 := by
  intro folds
  induction folds with
  | nil => intro st mv acc; exact framePres_refl st
  | cons f fs ih =>
    intro st mv acc
    obtain ⟨ti, te⟩ := f
    cases hbm : ModelSelector.base_model T (cvAssign st ti) n with
    | none =>
      rw [cvFoldLoop_cons_err hbm]
      exact framePres_cvAssign st ti
    | some model =>
      cases hSC : SC model (combine_sequences te st.sequences).1
          (combine_sequences te st.sequences).2 with
      | none =>
        rw [cvFoldLoop_cons_scorefail hbm hSC]
        exact framePres_cvAssign st ti
      | some q =>
        rw [cvFoldLoop_cons_ok hbm hSC]
        exact framePres_trans (framePres_cvAssign st ti)
          (ih (cvAssign st ti) (PyVar.bound model) (acc ++ [q]))

/-- The stateful fold loop realises the pure per-fold evaluation: on
success the `model` variable ends bound to the last fold's model and the
collected scores are returned; on failure (over at least one fold) the
loop ends with no collected scores. -/
theorem cvFoldLoop_run {M : Type} (T : Trainer M) (SC : Scorer M) (n : ℕ)
    (seqs : List Seq) (rs : ℕ) :
    ∀ (folds : List (List ℕ × List ℕ)) (st : SelectorState M) (mv : PyVar M)
      (acc : List ℚ), st.sequences = seqs → st.random_state = rs →
      (∀ qs m, foldEvalGo T SC seqs rs n folds acc (pvToOpt mv) = some (qs, m) →
        ∃ st', cvFoldLoop T SC n folds st mv acc = (st', PyVar.bound m, some qs)) ∧
      (foldEvalGo T SC seqs rs n folds acc (pvToOpt mv) = none → folds ≠ [] →
        ∃ st' mv', cvFoldLoop T SC n folds st mv acc = (st', mv', none)) := by
  intro folds
  induction folds with
  | nil =>
    intro st mv acc hs hr
    constructor
    · intro qs m hfe
      cases mv with
      | unbound => cases hfe
      | isNone => cases hfe
      | bound m₀ =>
        rw [show pvToOpt (PyVar.bound m₀) = some m₀ from rfl,
          foldEvalGo_nil_some] at hfe
        obtain ⟨h1, h2⟩ := Prod.mk.injEq .. ▸ Option.some.inj hfe
        rw [cvFoldLoop_nil, h1, h2]
        exact ⟨st, rfl⟩
    · intro _ hne
      exact absurd rfl hne
  | cons f fs ih =>
    intro st mv acc hs hr
    obtain ⟨ti, te⟩ := f
    have hbm := base_model_cvAssign T ti n hs hr
    cases hT : T n rs (combine_sequences ti seqs).1
        (combine_sequences ti seqs).2 with
    | error e =>
      rw [hT] at hbm
      constructor
      · intro qs m hfe
        rw [foldEvalGo_cons] at hfe
        simp only [hT] at hfe
        exact Option.noConfusion hfe
      · intro _ _
        exact ⟨cvAssign st ti, PyVar.isNone, cvFoldLoop_cons_err hbm⟩
    | ok m =>
      rw [hT] at hbm
      have hSCst : ∀ r, SC m (combine_sequences te seqs).1
          (combine_sequences te seqs).2 = r →
          SC m (combine_sequences te st.sequences).1
            (combine_sequences te st.sequences).2 = r := by
        intro r hsc
        rw [hs]
        exact hsc
      cases hSC : SC m (combine_sequences te seqs).1
          (combine_sequences te seqs).2 with
      | none =>
        constructor
        · intro qs m' hfe
          rw [foldEvalGo_cons] at hfe
          simp only [hT, hSC] at hfe
          exact Option.noConfusion hfe
        · intro _ _
          exact ⟨cvAssign st ti, PyVar.bound m,
            cvFoldLoop_cons_scorefail hbm (hSCst none hSC)⟩
      | some q =>
        have hrec := ih (cvAssign st ti) (PyVar.bound m) (acc ++ [q])
          (by rw [cvAssign_sequences]; exact hs)
          (by rw [cvAssign_random_state]; exact hr)
        constructor
        · intro qs m' hfe
          rw [foldEvalGo_cons] at hfe
          simp only [hT, hSC] at hfe
          obtain ⟨st', hst'⟩ := hrec.1 qs m' hfe
          exact ⟨st', by
            rw [cvFoldLoop_cons_ok hbm (hSCst (some q) hSC)]
            exact hst'⟩
        · intro hfe _
          rw [foldEvalGo_cons] at hfe
          simp only [hT, hSC] at hfe
          revert hrec hfe
          cases fs with
          | nil =>
            intro hrec hfe
            rw [foldEvalGo_nil_some] at hfe
            cases hfe
          | cons f' fs' =>
            intro hrec hfe
            obtain ⟨st', mv', hst'⟩ := hrec.2 hfe (by simp)
            exact ⟨st', mv', by
              rw [cvFoldLoop_cons_ok hbm (hSCst (some q) hSC)]
              exact hst'⟩

/-- After a non-empty fold loop, the working fields hold the training
concatenation of one of the folds. -/
theorem cvFoldLoop_state {M : Type} (T : Trainer M) (SC : Scorer M) (n : ℕ) :
    ∀ (folds : List (List ℕ × List ℕ)) (st : SelectorState M) (mv : PyVar M)
      (acc : List ℚ), folds ≠ [] →
      ∃ fold ∈ folds,
        (cvFoldLoop T SC n folds st mv acc).1.X =
          (combine_sequences fold.1 st.sequences).1 ∧
        (cvFoldLoop T SC n folds st mv acc).1.lengths =
          (combine_sequences fold.1 st.sequences).2 := by
  intro folds
  induction folds with
  | nil => intro st mv acc h; exact absurd rfl h
  | cons f fs ih =>
    intro st mv acc _
    obtain ⟨ti, te⟩ := f
    cases hbm : ModelSelector.base_model T (cvAssign st ti) n with
    | none =>
      rw [cvFoldLoop_cons_err hbm]
      exact ⟨(ti, te), List.mem_cons_self _ _, rfl, rfl⟩
    | some model =>
      cases hSC : SC model (combine_sequences te st.sequences).1
          (combine_sequences te st.sequences).2 with
      | none =>
        rw [cvFoldLoop_cons_scorefail hbm hSC]
        exact ⟨(ti, te), List.mem_cons_self _ _, rfl, rfl⟩
      | some q =>
        rw [cvFoldLoop_cons_ok hbm hSC]
        revert ih
        cases fs with
        | nil =>
          intro ih
          rw [cvFoldLoop_nil]
          exact ⟨(ti, te), List.mem_cons_self _ _, rfl, rfl⟩
        | cons f' fs' =>
          intro ih
          obtain ⟨fold, hmem, hX, hL⟩ :=
            ih (cvAssign st ti) (PyVar.bound model) (acc ++ [q])
              (by simp)
          rw [cvAssign_sequences] at hX hL
          exact ⟨fold, List.mem_cons_of_mem _ hmem, hX, hL⟩

/-- A successful pure fold evaluation collects one score per fold. -/
theorem foldEvalGo_length {M : Type} (T : Trainer M) (SC : Scorer M)
    (seqs : List Seq) (rs n : ℕ) :
    ∀ (folds : List (List ℕ × List ℕ)) (acc : List ℚ) (init : Option M)
      (qs : List ℚ) (m : M),
      foldEvalGo T SC seqs rs n folds acc init = some (qs, m) →
      qs.length = acc.length + folds.length := by
  intro folds
  induction folds with
  | nil =>
    intro acc init qs m h
    cases init with
    | none => cases h
    | some m' =>
      rw [foldEvalGo_nil_some] at h
      obtain ⟨h1, -⟩ := Prod.mk.injEq .. ▸ Option.some.inj h
      rw [← h1]
      simp
  | cons f fs ih =>
    intro acc init qs m h
    obtain ⟨ti, te⟩ := f
    rw [foldEvalGo_cons] at h
    cases hT : T n rs (combine_sequences ti seqs).1
        (combine_sequences ti seqs).2 with
    | error e =>
      simp only [hT] at h
      exact Option.noConfusion h
    | ok m' =>
      simp only [hT] at h
      cases hSC : SC m' (combine_sequences te seqs).1
          (combine_sequences te seqs).2 with
      | none =>
        simp only [hSC] at h
        exact Option.noConfusion h
      | some q =>
        simp only [hSC] at h
        have := ih (acc ++ [q]) (some m') qs m h
        rw [this]
        simp only [List.length_append, List.length_cons, List.length_nil]
        omega

theorem npMean_ne_nil (l : List ℚ) (h : l ≠ []) :
    npMean l = PyF.val (l.sum / (l.length : ℚ)) := by
  cases l with
  | nil => exact absurd rfl h
  | cons a as => rfl

theorem combine_sequences_len (idx : List ℕ) (seqs : List Seq) :
    (combine_sequences idx seqs).2.length = idx.length := by
  simp [combine_sequences]

/-! Part: Per-candidate characterization of `SelectorCV`'s outer loop -/

theorem cvLoop_nil {M : Type} (T : Trainer M) (SC : Scorer M) (kf : KFoldFn)
    (st : SelectorState M) (mv : PyVar M) (acc : List (PyF × Option M)) :
    cvLoop T SC kf [] st mv acc = (st, mv, acc) := rfl

theorem cvLoop_cons {M : Type} (T : Trainer M) (SC : Scorer M) (kf : KFoldFn)
    (n : ℕ) (ns : List ℕ) (st : SelectorState M) (mv : PyVar M)
    (acc : List (PyF × Option M)) :
    cvLoop T SC kf (n :: ns) st mv acc =
      cvLoop T SC kf ns (cvStep T SC kf st mv n).1
        (cvStep T SC kf st mv n).2.1
        (acc ++ (cvStep T SC kf st mv n).2.2) := rfl

/-- With fewer than 3 sequences, one outer iteration leaves the state
unchanged and contributes the single-fit block of the candidate. -/
theorem cvStep_lt3 {M : Type} (T : Trainer M) (SC : Scorer M) (kf : KFoldFn)
    (st : SelectorState M) (mv : PyVar M) (n : ℕ)
    (h3 : st.sequences.length < 3) :
    (cvStep T SC kf st mv n).1 = st ∧
    (cvStep T SC kf st mv n).2.2 = blockOf (cvCand T SC kf st n) true := by
  cases hbm : ModelSelector.base_model T st n with
  | none =>
    constructor <;> simp only [cvStep, cvCand, h3, if_true, hbm, blockOf]
  | some model =>
    cases hSC : SC model st.X st.lengths with
    | none =>
      constructor <;> simp only [cvStep, cvCand, h3, if_true, hbm, hSC, blockOf]
    | some q =>
      constructor <;>
        simp only [cvStep, cvCand, h3, if_true, hbm, hSC, blockOf, npMean]

/-- With at least 3 sequences and a non-empty fold list, one outer
iteration contributes the mean-score block of the candidate, touches only
the working fields, and leaves them holding some fold's training
concatenation. -/
theorem cvStep_ge3 {M : Type} (T : Trainer M) (SC : Scorer M) (kf : KFoldFn)
    (st : SelectorState M) (mv : PyVar M) (n : ℕ)
    (h3 : ¬ st.sequences.length < 3)
    (hkf : kf st.random_state st.sequences.length ≠ []) :
    framePres st (cvStep T SC kf st mv n).1 ∧
    (cvStep T SC kf st mv n).2.2 = blockOf (cvCand T SC kf st n) false ∧
    ∃ fold ∈ kf st.random_state st.sequences.length,
      (cvStep T SC kf st mv n).1.X = (combine_sequences fold.1 st.sequences).1 ∧
      (cvStep T SC kf st mv n).1.lengths =
        (combine_sequences fold.1 st.sequences).2 := by
  have hrun := cvFoldLoop_run T SC n st.sequences st.random_state
    (kf st.random_state st.sequences.length) st mv [] rfl rfl
  cases hfolds : kf st.random_state st.sequences.length with
  | nil => exact absurd hfolds hkf
  | cons f fs =>
    obtain ⟨ti, te⟩ := f
    rw [hfolds] at hrun
    have hinit : ∀ i₁ i₂ : Option M,
        foldEvalGo T SC st.sequences st.random_state n ((ti, te) :: fs) [] i₁ =
        foldEvalGo T SC st.sequences st.random_state n ((ti, te) :: fs) [] i₂ := by
      intro i₁ i₂
      rw [foldEvalGo_cons, foldEvalGo_cons]
    cases hfe : foldEvalGo T SC st.sequences st.random_state n
        ((ti, te) :: fs) [] none with
    | some p =>
      obtain ⟨qs, m⟩ := p
      obtain ⟨st', hloop⟩ := hrun.1 qs m ((hinit (pvToOpt mv) none).trans hfe)
      have hq : qs ≠ [] := by
        have := foldEvalGo_length T SC st.sequences st.random_state n
          ((ti, te) :: fs) [] none qs m hfe
        intro hnil
        rw [hnil] at this
        simp at this
      have hstep : cvStep T SC kf st mv n =
          (st', PyVar.bound m,
            [(PyF.val (qs.sum / (qs.length : ℚ)), some m)]) := by
        simp only [cvStep, h3, if_false, hfolds, hloop, npMean_ne_nil qs hq]
      have hcand : cvCand T SC kf st n = some (qs.sum / (qs.length : ℚ), m) := by
        simp only [cvCand, h3, if_false, hfolds, hfe]
      refine ⟨?_, ?_, ?_⟩
      · rw [hstep]
        have := cvFoldLoop_frame T SC n ((ti, te) :: fs) st mv []
        rw [hloop] at this
        exact this
      · rw [hstep, hcand]
        rfl
      · have := cvFoldLoop_state T SC n ((ti, te) :: fs) st mv [] (by simp)
        rw [hloop] at this
        obtain ⟨fold, hmem, hX, hL⟩ := this
        exact ⟨fold, hmem, by rw [hstep]; exact hX, by rw [hstep]; exact hL⟩
    | none =>
      obtain ⟨st', mv', hloop⟩ :=
        hrun.2 ((hinit (pvToOpt mv) none).trans hfe) (by simp)
      have hstep : cvStep T SC kf st mv n = (st', mv', []) := by
        simp only [cvStep, h3, if_false, hfolds, hloop]
      have hcand : cvCand T SC kf st n = none := by
        simp only [cvCand, h3, if_false, hfolds, hfe]
      refine ⟨?_, ?_, ?_⟩
      · rw [hstep]
        have := cvFoldLoop_frame T SC n ((ti, te) :: fs) st mv []
        rw [hloop] at this
        exact this
      · rw [hstep, hcand]
        rfl
      · have := cvFoldLoop_state T SC n ((ti, te) :: fs) st mv [] (by simp)
        rw [hloop] at this
        obtain ⟨fold, hmem, hX, hL⟩ := this
        exact ⟨fold, hmem, by rw [hstep]; exact hX, by rw [hstep]; exact hL⟩

/-- The per-candidate quality only depends on the fields that the fold
loop never mutates (and, below 3 sequences, on the untouched working
fields). -/
theorem cvCand_frame {M : Type} (T : Trainer M) (SC : Scorer M) (kf : KFoldFn)
    {s st : SelectorState M} (hf : framePres s st)
    (h3 : ¬ s.sequences.length < 3) (n : ℕ) :
    cvCand T SC kf st n = cvCand T SC kf s n := by
  have hseq : st.sequences = s.sequences := hf.2.2.1
  have hrs : st.random_state = s.random_state := hf.2.2.2.2.2.2.2.1
  simp only [cvCand, hseq, hrs, h3, if_false]

/-- Outer loop, fold-skip case: the state is never mutated and the score
list is the concatenation of the candidates' single-fit blocks. -/
theorem cvLoop_lt3 {M : Type} (T : Trainer M) (SC : Scorer M) (kf : KFoldFn)
    (s : SelectorState M) (h3 : s.sequences.length < 3) :
    ∀ (ns : List ℕ) (mv : PyVar M) (acc : List (PyF × Option M)),
      (cvLoop T SC kf ns s mv acc).1 = s ∧
      (cvLoop T SC kf ns s mv acc).2.2 =
        acc ++ ns.flatMap (fun n => blockOf (cvCand T SC kf s n) true) := by
  intro ns
  induction ns with
  | nil => intro mv acc; exact ⟨rfl, by simp [cvLoop_nil]⟩
  | cons n ns ih =>
    intro mv acc
    obtain ⟨h1, h2⟩ := cvStep_lt3 T SC kf s mv n h3
    rw [cvLoop_cons, h1, h2]
    obtain ⟨g1, g2⟩ := ih (cvStep T SC kf s mv n).2.1
      (acc ++ blockOf (cvCand T SC kf s n) true)
    refine ⟨g1, ?_⟩
    rw [g2, List.flatMap_cons, List.append_assoc]

/-- Outer loop, folding case: only the working fields are mutated, the
score list is the concatenation of the candidates' mean-score blocks, and
the final working fields hold some fold's training concatenation (unless
no candidate was processed at all). -/
theorem cvLoop_ge3 {M : Type} (T : Trainer M) (SC : Scorer M) (kf : KFoldFn)
    (s : SelectorState M) (h3 : ¬ s.sequences.length < 3)
    (hkf : kf s.random_state s.sequences.length ≠ []) :
    ∀ (ns : List ℕ) (st : SelectorState M) (mv : PyVar M)
      (acc : List (PyF × Option M)), framePres s st →
      framePres s (cvLoop T SC kf ns st mv acc).1 ∧
      (cvLoop T SC kf ns st mv acc).2.2 =
        acc ++ ns.flatMap (fun n => blockOf (cvCand T SC kf s n) false) ∧
      ((cvLoop T SC kf ns st mv acc).1 = st ∨
        ∃ fold ∈ kf s.random_state s.sequences.length,
          (cvLoop T SC kf ns st mv acc).1.X =
            (combine_sequences fold.1 s.sequences).1 ∧
          (cvLoop T SC kf ns st mv acc).1.lengths =
            (combine_sequences fold.1 s.sequences).2) := by
  intro ns
  induction ns with
  | nil =>
    intro st mv acc hframe
    exact ⟨hframe, by simp [cvLoop_nil], Or.inl rfl⟩
  | cons n ns ih =>
    intro st mv acc hframe
    have hseq : st.sequences = s.sequences := hframe.2.2.1
    have hrs : st.random_state = s.random_state := hframe.2.2.2.2.2.2.2.1
    obtain ⟨s1, s2, s3⟩ := cvStep_ge3 T SC kf st mv n
      (by rw [hseq]; exact h3) (by rw [hseq, hrs]; exact hkf)
    rw [cvCand_frame T SC kf hframe h3 n] at s2
    rw [cvLoop_cons, s2]
    obtain ⟨g1, g2, g3⟩ := ih (cvStep T SC kf st mv n).1
      (cvStep T SC kf st mv n).2.1
      (acc ++ blockOf (cvCand T SC kf s n) false)
      (framePres_trans hframe s1)
    refine ⟨g1, ?_, ?_⟩
    · rw [g2, List.flatMap_cons, List.append_assoc]
    · rcases g3 with heq | hfold
      · rw [heq]
        obtain ⟨fold, hmem, hX, hL⟩ := s3
        rw [hseq, hrs] at hmem
        rw [hseq] at hX hL
        exact Or.inr ⟨fold, hmem, hX, hL⟩
      · exact Or.inr hfold

/-! Part: From score blocks to the final selection -/

theorem blockOf_realEntries {M : Type} (c : Option (ℚ × M)) (fl : Bool) :
    realEntries (blockOf c fl) =
      match c with
      | none => []
      | some (q, m) => [(q, some m)] := by
  rcases c with _ | ⟨q, m⟩ <;> cases fl <;> rfl

theorem blockOf_eq_nil {M : Type} (c : Option (ℚ × M)) (fl : Bool) :
    blockOf c fl = [] ↔ c = none := by
  rcases c with _ | ⟨q, m⟩ <;> cases fl <;> simp [blockOf]

theorem flatMap_blocks_realEntries {M : Type} (cand : ℕ → Option (ℚ × M))
    (ns : List ℕ) (fl : Bool) :
    realEntries (ns.flatMap (fun n => blockOf (cand n) fl)) =
      (ns.filterMap cand).map (fun p => (p.1, some p.2)) := by
  induction ns with
  | nil => rfl
  | cons n ns ih =>
    rw [List.flatMap_cons, realEntries_append, blockOf_realEntries,
      List.filterMap_cons, ih]
    cases hc : cand n with
    | none => rfl
    | some p =>
      obtain ⟨q, m⟩ := p
      rfl

theorem flatMap_blocks_nil_iff {M : Type} (cand : ℕ → Option (ℚ × M))
    (ns : List ℕ) (fl : Bool) :
    ns.flatMap (fun n => blockOf (cand n) fl) = [] ↔
      ∀ n ∈ ns, cand n = none := by
  induction ns with
  | nil => simp
  | cons n ns ih =>
    rw [List.flatMap_cons, List.append_eq_nil, ih, blockOf_eq_nil]
    constructor
    · rintro ⟨h1, h2⟩ k hk
      rcases List.mem_cons.mp hk with rfl | hk
      · exact h1
      · exact h2 k hk
    · intro h
      exact ⟨h n (List.mem_cons_self n ns),
        fun k hk => h k (List.mem_cons_of_mem n hk)⟩

theorem flatMap_blocks_head_val {M : Type} (cand : ℕ → Option (ℚ × M))
    (fl : Bool) :
    ∀ (ns : List ℕ) (x : PyF × Option M) (xs : List (PyF × Option M)),
      ns.flatMap (fun n => blockOf (cand n) fl) = x :: xs →
      ∃ q om, x = (PyF.val q, om) := by
  intro ns
  induction ns with
  | nil =>
    intro x xs h
    cases h
  | cons n ns ih =>
    intro x xs h
    rw [List.flatMap_cons] at h
    cases hc : cand n with
    | none =>
      rw [hc] at h
      rw [show blockOf (none : Option (ℚ × M)) fl = [] from rfl,
        List.nil_append] at h
      exact ih x xs h
    | some p =>
      obtain ⟨q, m⟩ := p
      rw [hc] at h
      cases fl with
      | true =>
        rw [show blockOf (some (q, m)) true =
          [(PyF.val q, some m), (PyF.nan, some m)] from rfl] at h
        obtain ⟨hx, -⟩ := List.cons.injEq .. ▸ h
        exact ⟨q, some m, hx.symm⟩
      | false =>
        rw [show blockOf (some (q, m)) false =
          [(PyF.val q, some m)] from rfl] at h
        obtain ⟨hx, -⟩ := List.cons.injEq .. ▸ h
        exact ⟨q, some m, hx.symm⟩

theorem pyMax2_pyF_snd {M : Type} (q : ℚ) (om : Option M)
    (xs : List (PyF × Option M)) :
    (pyMax2 (fun best y => pyFlt best.1 y.1) (PyF.val q, om) xs).2 =
      (pyMax2 (fun best y => decide (best.1 < y.1)) (q, om)
        (realEntries xs)).2 := by
  rw [pyMax2_pyF]

/-- The selection from a concatenation of candidate blocks: `none` exactly
when every candidate failed, otherwise the model of a candidate whose
quality is maximal among all candidates. -/
theorem pySelScores_blocks {M : Type} (cand : ℕ → Option (ℚ × M))
    (ns : List ℕ) (fl : Bool) :
    (pySelScores (ns.flatMap (fun n => blockOf (cand n) fl)) = none ↔
      ∀ n ∈ ns, cand n = none) ∧
    (∀ m, pySelScores (ns.flatMap (fun n => blockOf (cand n) fl)) = some m →
      ∃ n ∈ ns, ∃ q, cand n = some (q, m) ∧
        ∀ n' ∈ ns, ∀ p, cand n' = some p → p.1 ≤ q) := by
  cases hL : ns.flatMap (fun n => blockOf (cand n) fl) with
  | nil =>
    constructor
    · rw [show pySelScores ([] : List (PyF × Option M)) = none from rfl]
      exact iff_of_true rfl ((flatMap_blocks_nil_iff cand ns fl).mp hL)
    · intro m hm
      rw [show pySelScores ([] : List (PyF × Option M)) = none from rfl] at hm
      cases hm
  | cons x xs =>
    obtain ⟨q0, om0, rfl⟩ := flatMap_blocks_head_val cand fl ns x xs hL
    have hsel : pySelScores ((PyF.val q0, om0) :: xs) =
        (pyMax2 (fun best y => decide (best.1 < y.1)) (q0, om0)
          (realEntries xs)).2 := pyMax2_pyF_snd q0 om0 xs
    have hre : (q0, om0) :: realEntries xs =
        (ns.filterMap cand).map (fun p => (p.1, some p.2)) := by
      rw [← realEntries_cons_val, ← hL]
      exact flatMap_blocks_realEntries cand ns fl
    have hbest := pyMax2_mem (Prod.fst (α := ℚ) (β := Option M)) (q0, om0)
      (realEntries xs)
    rw [hre] at hbest
    obtain ⟨p, hp, hpe⟩ := List.mem_map.mp hbest
    obtain ⟨pq, pm⟩ := p
    constructor
    · refine iff_of_false ?_ ?_
      · rw [hsel, ← hpe]
        simp
      · intro hall
        have := (flatMap_blocks_nil_iff cand ns fl).mpr hall
        rw [hL] at this
        cases this
    · intro m hm
      rw [hsel] at hm
      have hsnd : some pm = some m := by
        rw [show some pm = ((pq : ℚ), some pm).2 from rfl, hpe]
        exact hm
      obtain rfl := Option.some.inj hsnd
      obtain ⟨n, hn, hcn⟩ := List.mem_filterMap.mp hp
      refine ⟨n, hn, pq, hcn, ?_⟩
      intro n' hn' p' hp'
      have hmem : (p'.1, some p'.2) ∈ (q0, om0) :: realEntries xs := by
        rw [hre]
        exact List.mem_map.mpr ⟨p', List.mem_filterMap.mpr ⟨n', hn', hp'⟩, rfl⟩
      have hle := pyMax2_key_le (Prod.fst (α := ℚ) (β := Option M)) (q0, om0)
        (realEntries xs) _ hmem
      rw [← congrArg Prod.fst hpe] at hle
      exact hle

/-- Lemma: `SelectorCV.select`'s result is the Python-max selection over the
concatenated candidate blocks. -/
theorem cv_select_scores {M : Type} (T : Trainer M) (SC : Scorer M)
    (kf : KFoldFn) (s : SelectorState M)
    (hkf : kf s.random_state s.sequences.length ≠ []) :
    (SelectorCV.select T SC kf s).2 =
      pySelScores ((pyRange s.min_n_components (s.max_n_components + 1)).flatMap
        (fun n => blockOf (cvCand T SC kf s n)
          (decide (s.sequences.length < 3)))) := by
  have h0 : (SelectorCV.select T SC kf s).2 =
      pySelScores ((cvLoop T SC kf
        (pyRange s.min_n_components (s.max_n_components + 1))
        s PyVar.unbound []).2.2) := rfl
  by_cases h3 : s.sequences.length < 3
  · rw [show decide (s.sequences.length < 3) = true by simp [h3]]
    obtain ⟨-, hsc⟩ := cvLoop_lt3 T SC kf s h3
      (pyRange s.min_n_components (s.max_n_components + 1)) PyVar.unbound []
    rw [h0, hsc, List.nil_append]
  · rw [show decide (s.sequences.length < 3) = false by simp [h3]]
    obtain ⟨-, hsc, -⟩ := cvLoop_ge3 T SC kf s h3 hkf
      (pyRange s.min_n_components (s.max_n_components + 1)) s PyVar.unbound []
      (framePres_refl s)
    rw [h0, hsc, List.nil_append]

/-! Part: C3: the cross-validation selector -/

/-- C3: assuming KFold yields at least one fold, `SelectorCV.select`
returns `none` exactly when every candidate fails; otherwise it returns
the model of a candidate with maximal quality, where a candidate's
quality and retained model are: a single fit/score on the word's full
data when it has fewer than 3 sequences, and otherwise the arithmetic
mean of the per-fold held-out log-likelihoods together with the model
fitted in the last evaluated fold (any per-fold failure drops the
candidate). -/
theorem C3_cv_select {M : Type} (T : Trainer M) (SC : Scorer M) (kf : KFoldFn)
    (s : SelectorState M)
    (hkf : kf s.random_state s.sequences.length ≠ []) :
    ((SelectorCV.select T SC kf s).2 = none ↔
      ∀ n ∈ pyRange s.min_n_components (s.max_n_components + 1),
        cvCand T SC kf s n = none) ∧
    (∀ m, (SelectorCV.select T SC kf s).2 = some m →
      ∃ n ∈ pyRange s.min_n_components (s.max_n_components + 1), ∃ q,
        cvCand T SC kf s n = some (q, m) ∧
        ∀ n' ∈ pyRange s.min_n_components (s.max_n_components + 1),
          ∀ p, cvCand T SC kf s n' = some p → p.1 ≤ q) ∧
    (∀ n, s.sequences.length < 3 →
      cvCand T SC kf s n =
        match ModelSelector.base_model T s n with
        | none => none
        | some m =>
          match SC m s.X s.lengths with
          | none => none
          | some q => some (q, m)) ∧
    (∀ n, ¬ s.sequences.length < 3 →
      cvCand T SC kf s n =
        match foldEvalGo T SC s.sequences s.random_state n
            (kf s.random_state s.sequences.length) [] none with
        | none => none
        | some (qs, m) => some (qs.sum / (qs.length : ℚ), m)) := by
  have hmain := pySelScores_blocks (cvCand T SC kf s)
    (pyRange s.min_n_components (s.max_n_components + 1))
    (decide (s.sequences.length < 3))
  rw [← cv_select_scores T SC kf s hkf] at hmain
  refine ⟨hmain.1, hmain.2, ?_, ?_⟩
  · intro n h3
    simp only [cvCand, h3, if_true]
  · intro n h3
    simp only [cvCand, h3, if_false]

theorem C3_witness :
    wKf wSt3.random_state wSt3.sequences.length ≠ [] ∧
    (cvCand wT wSC wKf wSt3 2 =
      match foldEvalGo wT wSC wSt3.sequences wSt3.random_state 2
          (wKf wSt3.random_state wSt3.sequences.length) [] none with
      | none => none
      | some (qs, m) => some (qs.sum / (qs.length : ℚ), m)) :=
  ⟨by simp [wKf],
   (C3_cv_select wT wSC wKf wSt3 (by simp [wKf])).2.2.2 2 (by decide)⟩

/-! Part: C1 (amended): all-candidates-fail behaviour of the implemented
selectors -/

/-- C1 (amended): when the trainer fails for every requested state count,
`SelectorConstant.select`, `SelectorBIC.select` and `SelectorCV.select`
all return `none` without raising; `SelectorDIC.select` is excluded
because it is unimplemented and raises `NotImplementedError`
unconditionally. -/
theorem C1_all_fail {M : Type} (T : Trainer M) (SC : Scorer M)
    (nplog : ℕ → ℚ) (kf : KFoldFn) (s : SelectorState M)
    (hT : ∀ n rs X lens, ∃ e, T n rs X lens = Except.error e)
    (hkf : kf s.random_state s.sequences.length ≠ []) :
    SelectorConstant.select T s = none ∧
    SelectorBIC.select T SC nplog s = none ∧
    (SelectorCV.select T SC kf s).2 = none := by
  have hbm : ∀ (st : SelectorState M) (n : ℕ),
      ModelSelector.base_model T st n = none := by
    intro st n
    obtain ⟨e, he⟩ := hT n st.random_state st.X st.lengths
    simp [ModelSelector.base_model, he]
  refine ⟨hbm s s.n_constant, ?_, ?_⟩
  · have hsteps : (pyRange s.min_n_components
        (s.max_n_components + 1)).filterMap (bicStep T SC nplog s) = [] :=
      List.filterMap_eq_nil_iff.mpr (fun n _ => by simp [bicStep, hbm s n])
    simp only [SelectorBIC.select, hsteps]
  · have hcand : ∀ n, cvCand T SC kf s n = none := by
      intro n
      by_cases h3 : s.sequences.length < 3
      · simp only [cvCand, h3, if_true, hbm s n]
      · cases hf : kf s.random_state s.sequences.length with
        | nil => exact absurd hf hkf
        | cons f fs =>
          obtain ⟨ti, te⟩ := f
          have hfe : foldEvalGo T SC s.sequences s.random_state n
              ((ti, te) :: fs) [] none = none := by
            rw [foldEvalGo_cons]
            obtain ⟨e, he⟩ := hT n s.random_state
              (combine_sequences ti s.sequences).1
              (combine_sequences ti s.sequences).2
            simp [he]
          simp only [cvCand, h3, if_false, hf, hfe]
    rw [cv_select_scores T SC kf s hkf]
    exact (pySelScores_blocks (cvCand T SC kf s) _ _).1.mpr
      (fun n _ => hcand n)

theorem C1_witness :
    (∀ n rs X lens, ∃ e, wTfail n rs X lens = Except.error e) ∧
    SelectorConstant.select wTfail wSt2 = none ∧
    SelectorBIC.select wTfail wSC wLog wSt2 = none ∧
    (SelectorCV.select wTfail wSC wKf wSt2).2 = none := by
  have h : ∀ n rs X lens, ∃ e, wTfail n rs X lens = Except.error e :=
    fun _ _ _ _ => ⟨PyErr.trainError, rfl⟩
  exact ⟨h, C1_all_fail wTfail wSC wLog wKf wSt2 h (by simp [wKf])⟩

/-! Part: C8: determinism of the cross-validation selector -/

theorem cvAgree_cvAssign {M : Type} {st t : SelectorState M}
    (h : cvAgree st t) (ti : List ℕ) :
    cvAgree (cvAssign st ti) (cvAssign t ti) := by
  obtain ⟨h1, h2, h3, h4, h5, h6⟩ := h
  exact ⟨h1, by rw [cvAssign_X, cvAssign_X, h1], by
    rw [cvAssign_lengths, cvAssign_lengths, h1], h4, h5, h6⟩

/-- Two runs of the fold loop from states agreeing on the data and
hyperparameters behave identically. -/
theorem cvFoldLoop_agree {M : Type} (T : Trainer M) (SC : Scorer M) (n : ℕ) :
    ∀ (folds : List (List ℕ × List ℕ)) (st t : SelectorState M)
      (mv : PyVar M) (acc : List ℚ), cvAgree st t →
      (cvFoldLoop T SC n folds st mv acc).2 =
        (cvFoldLoop T SC n folds t mv acc).2 ∧
      cvAgree (cvFoldLoop T SC n folds st mv acc).1
        (cvFoldLoop T SC n folds t mv acc).1 := by
  intro folds
  induction folds with
  | nil =>
    intro st t mv acc h
    exact ⟨rfl, h⟩
  | cons f fs ih =>
    intro st t mv acc h
    obtain ⟨ti, te⟩ := f
    have ha := cvAgree_cvAssign h ti
    have hbm : ModelSelector.base_model T (cvAssign st ti) n =
        ModelSelector.base_model T (cvAssign t ti) n := by
      simp only [ModelSelector.base_model, ha.2.1, ha.2.2.1, ha.2.2.2.2.2]
    have hte : combine_sequences te st.sequences =
        combine_sequences te t.sequences := by rw [h.1]
    cases hb : ModelSelector.base_model T (cvAssign st ti) n with
    | none =>
      rw [cvFoldLoop_cons_err hb, cvFoldLoop_cons_err (hbm ▸ hb)]
      exact ⟨rfl, ha⟩
    | some model =>
      cases hSC : SC model (combine_sequences te st.sequences).1
          (combine_sequences te st.sequences).2 with
      | none =>
        rw [cvFoldLoop_cons_scorefail hb hSC,
          cvFoldLoop_cons_scorefail (hbm ▸ hb) (hte ▸ hSC)]
        exact ⟨rfl, ha⟩
      | some q =>
        rw [cvFoldLoop_cons_ok hb hSC,
          cvFoldLoop_cons_ok (hbm ▸ hb) (hte ▸ hSC)]
        exact ih (cvAssign st ti) (cvAssign t ti) (PyVar.bound model)
          (acc ++ [q]) ha

/-- Two outer-loop iterations from agreeing states contribute the same
`model` variable and score entries, and stay in agreement. -/
theorem cvStep_agree {M : Type} (T : Trainer M) (SC : Scorer M) (kf : KFoldFn)
    {st t : SelectorState M} (mv : PyVar M) (n : ℕ) (h : cvAgree st t) :
    (cvStep T SC kf st mv n).2 = (cvStep T SC kf t mv n).2 ∧
    cvAgree (cvStep T SC kf st mv n).1 (cvStep T SC kf t mv n).1 := by
  obtain ⟨h1, h2, h3, h4, h5, h6⟩ := h
  by_cases hlt : st.sequences.length < 3
  · have hlt' : t.sequences.length < 3 := by rw [← h1]; exact hlt
    have hbm : ModelSelector.base_model T st n =
        ModelSelector.base_model T t n := by
      simp only [ModelSelector.base_model, h2, h3, h6]
    cases hb : ModelSelector.base_model T st n with
    | none =>
      constructor <;>
        simp only [cvStep, hlt, hlt', if_true, hb, hbm ▸ hb] <;>
        exact ⟨h1, h2, h3, h4, h5, h6⟩
    | some model =>
      have hSCeq : SC model st.X st.lengths = SC model t.X t.lengths := by
        rw [h2, h3]
      cases hSC : SC model st.X st.lengths with
      | none =>
        constructor <;>
          simp only [cvStep, hlt, hlt', if_true, hb, hbm ▸ hb, hSC,
            hSCeq ▸ hSC] <;>
          exact ⟨h1, h2, h3, h4, h5, h6⟩
      | some q =>
        constructor <;>
          simp only [cvStep, hlt, hlt', if_true, hb, hbm ▸ hb, hSC,
            hSCeq ▸ hSC] <;>
          exact ⟨h1, h2, h3, h4, h5, h6⟩
  · have hlt' : ¬ t.sequences.length < 3 := by rw [← h1]; exact hlt
    have hfolds : kf st.random_state st.sequences.length =
        kf t.random_state t.sequences.length := by rw [h1, h6]
    have hloop := cvFoldLoop_agree T SC n
      (kf st.random_state st.sequences.length) st t mv []
      ⟨h1, h2, h3, h4, h5, h6⟩
    rcases hS : cvFoldLoop T SC n (kf st.random_state st.sequences.length)
      st mv [] with ⟨st1, mv1, r1⟩
    rcases hT2 : cvFoldLoop T SC n (kf t.random_state t.sequences.length)
      t mv [] with ⟨t1, mv2, r2⟩
    rw [hS] at hloop
    rw [hfolds, hT2] at hloop
    obtain ⟨hp, hagree⟩ := hloop
    simp only [Prod.mk.injEq] at hp
    obtain ⟨hmv, hr⟩ := hp
    subst hmv
    subst hr
    rw [hfolds] at hS
    constructor
    · simp only [cvStep, hlt, hlt', if_false, hfolds, hS, hT2]
      cases r1 with
      | none => rfl
      | some cv_scores => cases mv1 <;> rfl
    · simp only [cvStep, hlt, hlt', if_false, hfolds, hS, hT2]
      cases r1 with
      | none => exact hagree
      | some cv_scores => cases mv1 <;> exact hagree

/-- Two outer loops from agreeing states produce the same score list. -/
theorem cvLoop_agree {M : Type} (T : Trainer M) (SC : Scorer M) (kf : KFoldFn) :
    ∀ (ns : List ℕ) (st t : SelectorState M) (mv : PyVar M)
      (acc : List (PyF × Option M)), cvAgree st t →
      (cvLoop T SC kf ns st mv acc).2.2 =
        (cvLoop T SC kf ns t mv acc).2.2 := by
  intro ns
  induction ns with
  | nil => intro st t mv acc h; rfl
  | cons n ns ih =>
    intro st t mv acc h
    obtain ⟨hp, hagree⟩ := cvStep_agree T SC kf mv n h
    rw [cvLoop_cons, cvLoop_cons]
    have h21 : (cvStep T SC kf st mv n).2.1 = (cvStep T SC kf t mv n).2.1 :=
      congrArg Prod.fst hp
    have h22 : (cvStep T SC kf st mv n).2.2 = (cvStep T SC kf t mv n).2.2 :=
      congrArg Prod.snd hp
    rw [h21, h22]
    exact ih (cvStep T SC kf st mv n).1 (cvStep T SC kf t mv n).1
      (cvStep T SC kf t mv n).2.1
      (acc ++ (cvStep T SC kf t mv n).2.2) hagree

/-- C8: `SelectorCV.select` is deterministic: two runs over the same
word data (sequences and concatenated observations), the same candidate
range and the same `random_state` produce the same collected score list —
hence the same chosen candidate — and the same returned model, whatever
the remaining fields (corpus maps, word name, baseline constant,
verbosity) are. -/
theorem C8_cv_deterministic {M : Type} (T : Trainer M) (SC : Scorer M)
    (kf : KFoldFn) (s₁ s₂ : SelectorState M)
    (hseq : s₁.sequences = s₂.sequences) (hX : s₁.X = s₂.X)
    (hlen : s₁.lengths = s₂.lengths)
    (hmin : s₁.min_n_components = s₂.min_n_components)
    (hmax : s₁.max_n_components = s₂.max_n_components)
    (hrs : s₁.random_state = s₂.random_state) :
    (cvScoresRun T SC kf s₁).2.2 = (cvScoresRun T SC kf s₂).2.2 ∧
    (SelectorCV.select T SC kf s₁).2 = (SelectorCV.select T SC kf s₂).2 := by
  have hs : (cvScoresRun T SC kf s₁).2.2 = (cvScoresRun T SC kf s₂).2.2 := by
    have h0 : cvScoresRun T SC kf s₁ =
        cvLoop T SC kf (pyRange s₁.min_n_components (s₁.max_n_components + 1))
          s₁ PyVar.unbound [] := rfl
    have h1 : cvScoresRun T SC kf s₂ =
        cvLoop T SC kf (pyRange s₂.min_n_components (s₂.max_n_components + 1))
          s₂ PyVar.unbound [] := rfl
    rw [h0, h1, ← hmin, ← hmax]
    exact cvLoop_agree T SC kf
      (pyRange s₁.min_n_components (s₁.max_n_components + 1)) s₁ s₂
      PyVar.unbound [] ⟨hseq, hX, hlen, hmin, hmax, hrs⟩
  refine ⟨hs, ?_⟩
  have g1 : (SelectorCV.select T SC kf s₁).2 =
      pySelScores ((cvScoresRun T SC kf s₁).2.2) := rfl
  have g2 : (SelectorCV.select T SC kf s₂).2 =
      pySelScores ((cvScoresRun T SC kf s₂).2.2) := rfl
  rw [g1, g2, hs]

theorem C8_witness :
    (cvScoresRun wT wSC wKf wSt3).2.2 = (cvScoresRun wT wSC wKf wSt3b).2.2 ∧
    (SelectorCV.select wT wSC wKf wSt3).2 =
      (SelectorCV.select wT wSC wKf wSt3b).2 :=
  C8_cv_deterministic wT wSC wKf wSt3 wSt3b rfl rfl rfl rfl rfl rfl

/-! Part: pinning the last evaluated fold -/

theorem lastEvalTrain_nil {M : Type} (T : Trainer M) (SC : Scorer M)
    (seqs : List Seq) (rs n : ℕ) :
    lastEvalTrain T SC seqs rs n [] = none := rfl

theorem lastEvalTrain_cons {M : Type} (T : Trainer M) (SC : Scorer M)
    (seqs : List Seq) (rs n : ℕ) (ti te : List ℕ)
    (rest : List (List ℕ × List ℕ)) :
    lastEvalTrain T SC seqs rs n ((ti, te) :: rest) =
      match T n rs (combine_sequences ti seqs).1
          (combine_sequences ti seqs).2 with
      | Except.error _ => some ti
      | Except.ok m =>
        match SC m (combine_sequences te seqs).1
            (combine_sequences te seqs).2 with
        | none => some ti
        | some _ =>
          match lastEvalTrain T SC seqs rs n rest with
          | none => some ti
          | some ti' => some ti' := rfl

/-- A non-empty fold list always has a last evaluated fold. -/
theorem lastEvalTrain_ne_none {M : Type} (T : Trainer M) (SC : Scorer M)
    (seqs : List Seq) (rs n : ℕ) (folds : List (List ℕ × List ℕ))
    (hne : folds ≠ []) :
    ∃ ti, lastEvalTrain T SC seqs rs n folds = some ti := by
  cases h : lastEvalTrain T SC seqs rs n folds with
  | some ti => exact ⟨ti, rfl⟩
  | none =>
    exfalso
    cases folds with
    | nil => exact hne rfl
    | cons f rest =>
      obtain ⟨ti, te⟩ := f
      rw [lastEvalTrain_cons] at h
      cases hT : T n rs (combine_sequences ti seqs).1
          (combine_sequences ti seqs).2 with
      | error e =>
        simp only [hT] at h
        exact Option.noConfusion h
      | ok m =>
        simp only [hT] at h
        cases hSC : SC m (combine_sequences te seqs).1
            (combine_sequences te seqs).2 with
        | none =>
          simp only [hSC] at h
          exact Option.noConfusion h
        | some q =>
          simp only [hSC] at h
          cases hrest : lastEvalTrain T SC seqs rs n rest with
          | none =>
            simp only [hrest] at h
            exact Option.noConfusion h
          | some ti' =>
            simp only [hrest] at h
            exact Option.noConfusion h

/-- The last evaluated fold is one of the folds. -/
theorem lastEvalTrain_mem {M : Type} (T : Trainer M) (SC : Scorer M)
    (seqs : List Seq) (rs n : ℕ) :
    ∀ (folds : List (List ℕ × List ℕ)) (ti : List ℕ),
      lastEvalTrain T SC seqs rs n folds = some ti →
      ti ∈ folds.map Prod.fst := by
  intro folds
  induction folds with
  | nil =>
    intro ti h
    cases h
  | cons f rest ih =>
    intro ti h
    obtain ⟨ti0, te⟩ := f
    rw [lastEvalTrain_cons] at h
    cases hT : T n rs (combine_sequences ti0 seqs).1
        (combine_sequences ti0 seqs).2 with
    | error e =>
      simp only [hT] at h
      obtain rfl := Option.some.inj h
      exact List.mem_cons_self _ _
    | ok m =>
      simp only [hT] at h
      cases hSC : SC m (combine_sequences te seqs).1
          (combine_sequences te seqs).2 with
      | none =>
        simp only [hSC] at h
        obtain rfl := Option.some.inj h
        exact List.mem_cons_self _ _
      | some q =>
        simp only [hSC] at h
        cases hrest : lastEvalTrain T SC seqs rs n rest with
        | none =>
          simp only [hrest] at h
          obtain rfl := Option.some.inj h
          exact List.mem_cons_self _ _
        | some ti' =>
          simp only [hrest] at h
          obtain rfl := Option.some.inj h
          exact List.mem_cons_of_mem _ (ih ti' hrest)

/-- After the fold loop, the working fields hold exactly the last
evaluated fold's training concatenation (and nothing ran when there are
no folds). -/
theorem cvFoldLoop_last_state {M : Type} (T : Trainer M) (SC : Scorer M)
    (n : ℕ) (seqs : List Seq) (rs : ℕ) :
    ∀ (folds : List (List ℕ × List ℕ)) (st : SelectorState M) (mv : PyVar M)
      (acc : List ℚ), st.sequences = seqs → st.random_state = rs →
      (lastEvalTrain T SC seqs rs n folds = none →
        (cvFoldLoop T SC n folds st mv acc).1 = st) ∧
      (∀ ti, lastEvalTrain T SC seqs rs n folds = some ti →
        (cvFoldLoop T SC n folds st mv acc).1.X =
          (combine_sequences ti seqs).1 ∧
        (cvFoldLoop T SC n folds st mv acc).1.lengths =
          (combine_sequences ti seqs).2) := by
  intro folds
  induction folds with
  | nil =>
    intro st mv acc hs hr
    constructor
    · intro _
      rw [cvFoldLoop_nil]
    · intro ti h
      cases h
  | cons f rest ih =>
    intro st mv acc hs hr
    obtain ⟨ti0, te⟩ := f
    have hbm := base_model_cvAssign T ti0 n hs hr
    have hXa : (cvAssign st ti0).X = (combine_sequences ti0 seqs).1 := by
      rw [cvAssign_X, hs]
    have hLa : (cvAssign st ti0).lengths = (combine_sequences ti0 seqs).2 := by
      rw [cvAssign_lengths, hs]
    cases hT : T n rs (combine_sequences ti0 seqs).1
        (combine_sequences ti0 seqs).2 with
    | error e =>
      rw [hT] at hbm
      have hle : lastEvalTrain T SC seqs rs n ((ti0, te) :: rest) = some ti0 := by
        rw [lastEvalTrain_cons]
        simp only [hT]
      constructor
      · intro h
        rw [hle] at h
        cases h
      · intro ti h
        rw [hle] at h
        obtain rfl := Option.some.inj h
        rw [cvFoldLoop_cons_err hbm]
        exact ⟨hXa, hLa⟩
    | ok m =>
      rw [hT] at hbm
      have hSCst : ∀ r, SC m (combine_sequences te seqs).1
          (combine_sequences te seqs).2 = r →
          SC m (combine_sequences te st.sequences).1
            (combine_sequences te st.sequences).2 = r := by
        intro r hsc
        rw [hs]
        exact hsc
      cases hSC : SC m (combine_sequences te seqs).1
          (combine_sequences te seqs).2 with
      | none =>
        have hle : lastEvalTrain T SC seqs rs n ((ti0, te) :: rest) =
            some ti0 := by
          rw [lastEvalTrain_cons]
          simp only [hT, hSC]
        constructor
        · intro h
          rw [hle] at h
          cases h
        · intro ti h
          rw [hle] at h
          obtain rfl := Option.some.inj h
          rw [cvFoldLoop_cons_scorefail hbm (hSCst none hSC)]
          exact ⟨hXa, hLa⟩
      | some q =>
        have hrec := ih (cvAssign st ti0) (PyVar.bound m) (acc ++ [q])
          (by rw [cvAssign_sequences]; exact hs)
          (by rw [cvAssign_random_state]; exact hr)
        cases hrest : lastEvalTrain T SC seqs rs n rest with
        | none =>
          have hle : lastEvalTrain T SC seqs rs n ((ti0, te) :: rest) =
              some ti0 := by
            rw [lastEvalTrain_cons]
            simp only [hT, hSC, hrest]
          constructor
          · intro h
            rw [hle] at h
            cases h
          · intro ti h
            rw [hle] at h
            obtain rfl := Option.some.inj h
            rw [cvFoldLoop_cons_ok hbm (hSCst (some q) hSC), hrec.1 hrest]
            exact ⟨hXa, hLa⟩
        | some ti' =>
          have hle : lastEvalTrain T SC seqs rs n ((ti0, te) :: rest) =
              some ti' := by
            rw [lastEvalTrain_cons]
            simp only [hT, hSC, hrest]
          constructor
          · intro h
            rw [hle] at h
            cases h
          · intro ti h
            rw [hle] at h
            obtain rfl := Option.some.inj h
            rw [cvFoldLoop_cons_ok hbm (hSCst (some q) hSC)]
            exact hrec.2 ti' hrest

/-- In the folding branch, the state returned by one outer iteration is
exactly the fold loop's final state, whatever the loop produced. -/
theorem cvStep_ge3_state {M : Type} (T : Trainer M) (SC : Scorer M)
    (kf : KFoldFn) (st : SelectorState M) (mv : PyVar M) (n : ℕ)
    (h3 : ¬ st.sequences.length < 3) :
    (cvStep T SC kf st mv n).1 =
      (cvFoldLoop T SC n (kf st.random_state st.sequences.length)
        st mv []).1 := by
  simp only [cvStep, h3, if_false]
  rcases h : cvFoldLoop T SC n (kf st.random_state st.sequences.length)
    st mv [] with ⟨st1, mv1, r⟩
  cases r with
  | none => rfl
  | some cv_scores => cases mv1 <;> rfl

/-- The outer loop's final state is the state of its last iteration. -/
theorem cvLoop_last {M : Type} (T : Trainer M) (SC : Scorer M) (kf : KFoldFn)
    (s : SelectorState M) (h3 : ¬ s.sequences.length < 3)
    (hkf : kf s.random_state s.sequences.length ≠ []) :
    ∀ (ns : List ℕ) (st : SelectorState M) (mv : PyVar M)
      (acc : List (PyF × Option M)) (nL : ℕ), ns.getLast? = some nL →
      framePres s st →
      ∃ st₀ mv₀, framePres s st₀ ∧
        (cvLoop T SC kf ns st mv acc).1 = (cvStep T SC kf st₀ mv₀ nL).1 := by
  intro ns
  induction ns with
  | nil =>
    intro st mv acc nL hL _
    cases hL
  | cons n ns' ih =>
    intro st mv acc nL hL hframe
    revert ih
    cases ns' with
    | nil =>
      intro _
      rw [List.getLast?_singleton] at hL
      obtain rfl := Option.some.inj hL
      exact ⟨st, mv, hframe, by rw [cvLoop_cons, cvLoop_nil]⟩
    | cons n2 ns'' =>
      intro ih
      rw [List.getLast?_cons_cons] at hL
      have hseq : st.sequences = s.sequences := hframe.2.2.1
      have hrs : st.random_state = s.random_state := hframe.2.2.2.2.2.2.2.1
      obtain ⟨s1, -, -⟩ := cvStep_ge3 T SC kf st mv n
        (by rw [hseq]; exact h3) (by rw [hseq, hrs]; exact hkf)
      rw [cvLoop_cons]
      exact ih (cvStep T SC kf st mv n).1 (cvStep T SC kf st mv n).2.1
        (acc ++ (cvStep T SC kf st mv n).2.2) nL hL
        (framePres_trans hframe s1)

/-! Part: C9: the fold loop's mutation of the working fields -/

/-- C9: for a word with at least 3 sequences, a non-empty candidate range
and at least one fold (whose training part is a proper subset of the
sequences, as KFold guarantees), `SelectorCV.select` leaves every field
except `X` and `lengths` unchanged, while after it returns `X` and
`lengths` hold the training concatenation of the last evaluated fold —
the fold at which the fold loop of the final candidate (the last `n` of
the range) stopped, as computed by `lastEvalTrain` — and in particular
`lengths` is no longer the word's original full length list. -/
theorem C9_cv_mutation {M : Type} (T : Trainer M) (SC : Scorer M)
    (kf : KFoldFn) (s : SelectorState M)
    (h3 : 3 ≤ s.sequences.length)
    (hrange : pyRange s.min_n_components (s.max_n_components + 1) ≠ [])
    (hkf : kf s.random_state s.sequences.length ≠ [])
    (htr : ∀ fold ∈ kf s.random_state s.sequences.length,
      fold.1.length < s.sequences.length)
    (hlen : s.lengths.length = s.sequences.length) :
    framePres s (SelectorCV.select T SC kf s).1 ∧
    (∀ nL, (pyRange s.min_n_components
        (s.max_n_components + 1)).getLast? = some nL →
      ∃ ti, lastEvalTrain T SC s.sequences s.random_state nL
          (kf s.random_state s.sequences.length) = some ti ∧
        ti ∈ (kf s.random_state s.sequences.length).map Prod.fst ∧
        (SelectorCV.select T SC kf s).1.X =
          (combine_sequences ti s.sequences).1 ∧
        (SelectorCV.select T SC kf s).1.lengths =
          (combine_sequences ti s.sequences).2) ∧
    (SelectorCV.select T SC kf s).1.lengths ≠ s.lengths := by
  have h3' : ¬ s.sequences.length < 3 := not_lt.mpr h3
  have h0 : (SelectorCV.select T SC kf s).1 =
      (cvLoop T SC kf (pyRange s.min_n_components (s.max_n_components + 1))
        s PyVar.unbound []).1 := rfl
  have hframe : framePres s (SelectorCV.select T SC kf s).1 := by
    obtain ⟨g1, -, -⟩ := cvLoop_ge3 T SC kf s h3' hkf
      (pyRange s.min_n_components (s.max_n_components + 1)) s PyVar.unbound []
      (framePres_refl s)
    rw [h0]
    exact g1
  have hpin : ∀ nL, (pyRange s.min_n_components
      (s.max_n_components + 1)).getLast? = some nL →
      ∃ ti, lastEvalTrain T SC s.sequences s.random_state nL
          (kf s.random_state s.sequences.length) = some ti ∧
        ti ∈ (kf s.random_state s.sequences.length).map Prod.fst ∧
        (SelectorCV.select T SC kf s).1.X =
          (combine_sequences ti s.sequences).1 ∧
        (SelectorCV.select T SC kf s).1.lengths =
          (combine_sequences ti s.sequences).2 := by
    intro nL hL
    obtain ⟨st₀, mv₀, hf₀, hstate⟩ := cvLoop_last T SC kf s h3' hkf
      (pyRange s.min_n_components (s.max_n_components + 1)) s PyVar.unbound []
      nL hL (framePres_refl s)
    have hseq₀ : st₀.sequences = s.sequences := hf₀.2.2.1
    have hrs₀ : st₀.random_state = s.random_state := hf₀.2.2.2.2.2.2.2.1
    have hstep := cvStep_ge3_state T SC kf st₀ mv₀ nL (by rw [hseq₀]; exact h3')
    have hkfeq : kf st₀.random_state st₀.sequences.length =
        kf s.random_state s.sequences.length := by rw [hseq₀, hrs₀]
    obtain ⟨ti, hti⟩ := lastEvalTrain_ne_none T SC s.sequences s.random_state
      nL (kf s.random_state s.sequences.length) hkf
    have hls := cvFoldLoop_last_state T SC nL s.sequences s.random_state
      (kf s.random_state s.sequences.length) st₀ mv₀ [] hseq₀ hrs₀
    obtain ⟨hX, hLn⟩ := hls.2 ti hti
    refine ⟨ti, hti, lastEvalTrain_mem T SC s.sequences s.random_state nL
      (kf s.random_state s.sequences.length) ti hti, ?_, ?_⟩
    · rw [h0, hstate, hstep, hkfeq]
      exact hX
    · rw [h0, hstate, hstep, hkfeq]
      exact hLn
  refine ⟨hframe, hpin, ?_⟩
  cases hgl : (pyRange s.min_n_components
      (s.max_n_components + 1)).getLast? with
  | none => exact absurd (List.getLast?_eq_none_iff.mp hgl) hrange
  | some nL =>
    obtain ⟨ti, hti, hmem, -, hLn⟩ := hpin nL hgl
    rw [hLn]
    intro hcontra
    have hlen2 := congrArg List.length hcontra
    rw [combine_sequences_len, hlen] at hlen2
    obtain ⟨fold, hfmem, hf1⟩ := List.mem_map.mp hmem
    have hflt := htr fold hfmem
    rw [hf1, hlen2] at hflt
    exact absurd hflt (lt_irrefl _)

theorem C9_witness :
    (3 ≤ wSt3.sequences.length ∧
      pyRange wSt3.min_n_components (wSt3.max_n_components + 1) ≠ [] ∧
      wKf wSt3.random_state wSt3.sequences.length ≠ []) ∧
    framePres wSt3 (SelectorCV.select wT wSC wKf wSt3).1 ∧
    (∀ nL, (pyRange wSt3.min_n_components
        (wSt3.max_n_components + 1)).getLast? = some nL →
      ∃ ti, lastEvalTrain wT wSC wSt3.sequences wSt3.random_state nL
          (wKf wSt3.random_state wSt3.sequences.length) = some ti ∧
        ti ∈ (wKf wSt3.random_state wSt3.sequences.length).map Prod.fst ∧
        (SelectorCV.select wT wSC wKf wSt3).1.X =
          (combine_sequences ti wSt3.sequences).1 ∧
        (SelectorCV.select wT wSC wKf wSt3).1.lengths =
          (combine_sequences ti wSt3.sequences).2) ∧
    (SelectorCV.select wT wSC wKf wSt3).1.lengths ≠ wSt3.lengths :=
  ⟨⟨by decide, by decide, by simp [wKf]⟩,
   C9_cv_mutation wT wSC wKf wSt3 (by decide) (by decide) (by simp [wKf])
     (by decide) (by decide)⟩

end AIND
